import Mathlib

set_option autoImplicit false

namespace MemexAst

/-- Shallow embedding of the subset of the Go AST (`go/ast`) that the analyzer
touches: files, declarations, type literals, fields and expressions. Field
entries model `ast.Field` (a possibly empty name list plus a type expression);
embedded struct fields and parameter-less interface methods are fields with the
appropriate name lists, exactly as `go/parser` produces them. -/
inductive GoNode where
  | file (pkgName : Option String) (imports : List (Option String × String))
      (decls : List GoNode)
  | funcDecl (name : String) (recv : Option String) (body : List GoNode)
  | genDecl (specs : List GoNode)
  | typeSpec (name : String) (ty : GoNode)
  | structType (fields : List GoNode)
  | interfaceType (methods : List GoNode)
  | field (names : List String) (ty : GoNode)
  | callExpr (fn : GoNode) (args : List GoNode)
  | ident (name : String)
  | selectorExpr (x : GoNode) (sel : String)
  | starExpr (x : GoNode)
  | otherType
  deriving Repr

namespace GoNode

mutual

/-- Structural equality on embedded Go AST nodes (the model of Go's
interface-value comparison `n == node` in `findParent`). -/
def beq : GoNode → GoNode → Bool
  | .file p1 i1 d1, .file p2 i2 d2 => p1 == p2 && i1 == i2 && beqList d1 d2
  | .funcDecl n1 r1 b1, .funcDecl n2 r2 b2 => n1 == n2 && r1 == r2 && beqList b1 b2
  | .genDecl s1, .genDecl s2 => beqList s1 s2
  | .typeSpec n1 t1, .typeSpec n2 t2 => n1 == n2 && beq t1 t2
  | .structType f1, .structType f2 => beqList f1 f2
  | .interfaceType m1, .interfaceType m2 => beqList m1 m2
  | .field n1 t1, .field n2 t2 => n1 == n2 && beq t1 t2
  | .callExpr f1 a1, .callExpr f2 a2 => beq f1 f2 && beqList a1 a2
  | .ident n1, .ident n2 => n1 == n2
  | .selectorExpr x1 s1, .selectorExpr x2 s2 => beq x1 x2 && s1 == s2
  | .starExpr x1, .starExpr x2 => beq x1 x2
  | .otherType, .otherType => true
  | _, _ => false

def beqList : List GoNode → List GoNode → Bool
  | [], [] => true
  | a :: as, b :: bs => beq a b && beqList as bs
  | _, _ => false

end

mutual

theorem beq_refl : ∀ n : GoNode, beq n n = true
  | .file p i d => by simp [beq, beqList_refl d]
  | .funcDecl n r b => by simp [beq, beqList_refl b]
  | .genDecl s => by simp [beq, beqList_refl s]
  | .typeSpec n t => by simp [beq, beq_refl t]
  | .structType f => by simp [beq, beqList_refl f]
  | .interfaceType m => by simp [beq, beqList_refl m]
  | .field n t => by simp [beq, beq_refl t]
  | .callExpr f a => by simp [beq, beq_refl f, beqList_refl a]
  | .ident n => by simp [beq]
  | .selectorExpr x s => by simp [beq, beq_refl x]
  | .starExpr x => by simp [beq, beq_refl x]
  | .otherType => by simp [beq]

theorem beqList_refl : ∀ l : List GoNode, beqList l l = true
  | [] => by simp [beqList]
  | a :: as => by simp [beqList, beq_refl a, beqList_refl as]

end

mutual

/-- The visit sequence of `ast.Inspect(root, f)`: nodes are listed in the order
`f` is invoked on them; when `stop` holds at a node, `f` returned false there
and the traversal does not descend into that node's children. -/
def visitSeq (stop : GoNode → Bool) (n : GoNode) : List GoNode :=
  n :: (if stop n then [] else visitChildren stop n)

/-- The concatenated visit sequences of a node's children, per constructor. -/
def visitChildren (stop : GoNode → Bool) : GoNode → List GoNode
  | .file _ _ ds => visitSeqList stop ds
  | .funcDecl _ _ body => visitSeqList stop body
  | .genDecl specs => visitSeqList stop specs
  | .typeSpec _ ty => visitSeq stop ty
  | .structType fs => visitSeqList stop fs
  | .interfaceType ms => visitSeqList stop ms
  | .field _ ty => visitSeq stop ty
  | .callExpr f args => visitSeq stop f ++ visitSeqList stop args
  | .ident _ => []
  | .selectorExpr x _ => visitSeq stop x
  | .starExpr x => visitSeq stop x
  | .otherType => []

/-- Visit sequence of a list of sibling nodes. -/
def visitSeqList (stop : GoNode → Bool) : List GoNode → List GoNode
  | [] => []
  | n :: ns => visitSeq stop n ++ visitSeqList stop ns

end

/-- Full preorder traversal: `ast.Inspect` with a callback that always returns
true (as in `GetTypes`, `GetFunctions`, `analyzeCalls`, `analyzeUses`). -/
def allNodes (n : GoNode) : List GoNode :=
  visitSeq (fun _ => false) n

end GoNode

mutual

/-- Number of nodes in a tree (used only to bound the `getCurrentFunction`
walk, which in Go is bounded by the tree's height). -/
def nodeCount : GoNode → Nat
  | .file _ _ ds => 1 + nodeCountList ds
  | .funcDecl _ _ body => 1 + nodeCountList body
  | .genDecl specs => 1 + nodeCountList specs
  | .typeSpec _ ty => 1 + nodeCount ty
  | .structType fs => 1 + nodeCountList fs
  | .interfaceType ms => 1 + nodeCountList ms
  | .field _ ty => 1 + nodeCount ty
  | .callExpr f args => 1 + nodeCount f + nodeCountList args
  | .ident _ => 1
  | .selectorExpr x _ => 1 + nodeCount x
  | .starExpr x => 1 + nodeCount x
  | .otherType => 1

/-- Total node count of a list of trees. -/
def nodeCountList : List GoNode → Nat
  | [] => 0
  | n :: ns => nodeCount n + nodeCountList ns

end

/-- Model of `getTypeString` from `parser.go`: textual form of a type expression
(identifier, pointer, selector; anything else gives the empty string). -/
def getTypeString : GoNode → String
  | .ident n => n
  | .starExpr x => "*" ++ getTypeString x
  | .selectorExpr x sel => getTypeString x ++ "." ++ sel
  | _ => ""

/-- Model of `findParent` from `parser.go`: runs `ast.Inspect(node, f)` where `f`
returns false at `node` itself (pointer equality, modelled by structural
equality — the first node visited is `node` itself) and otherwise assigns
`parent = n`; returns the final value of `parent`. -/
def findParent (node : GoNode) : Option GoNode :=
  (GoNode.visitSeq (fun n => GoNode.beq n node) node).foldl
    (fun parent n => if GoNode.beq n node then parent else some n) none

/-- The loop body of `getCurrentFunction` from `parser.go`:
`for n := node; n != nil; n = findParent(n)`. The fuel argument bounds the
number of iterations; since `findParent` always returns `none` (proved below),
any positive fuel computes the Go loop's result. -/
def getCurrentFunctionLoop : Nat → Option GoNode → String
  | _, none => ""
  | 0, some _ => ""
  | Nat.succ fuel, some n =>
    match n with
    | .funcDecl name _ _ => name
    | m => getCurrentFunctionLoop fuel (findParent m)

/-- Model of `getCurrentFunction` from `parser.go`: walks the `findParent` chain from
`node` looking for a `FuncDecl`, returning its name, or `""` if the chain
ends. -/
def getCurrentFunction (node : GoNode) : String :=
  getCurrentFunctionLoop (nodeCount node + 1) (some node)

/-- Key fact: `ast.Inspect(node, f)` invokes `f` first on `node` itself, where `f`
returns false, so the traversal stops immediately: `findParent` never assigns
`parent` and always returns `none` (it searches `node`'s own subtree, not its
ancestors). -/
theorem findParent_eq_none (node : GoNode) : findParent node = none := by
  unfold findParent
  rw [GoNode.visitSeq]
  simp [GoNode.beq_refl]

/-- Consequence: `getCurrentFunction` returns the node's own name when the
node is itself a `FuncDecl` and the empty string otherwise — it never finds a
proper ancestor. -/
theorem getCurrentFunction_eq (node : GoNode) :
    getCurrentFunction node =
      (match node with
       | .funcDecl name _ _ => name
       | _ => "") := by
  unfold getCurrentFunction
  cases node <;> simp [getCurrentFunctionLoop, findParent_eq_none]

/-! ### Association-list models of Go maps

Go maps are modelled as association lists with unique keys: assignment is
`upsert` (replace the entry if the key exists, append otherwise), matching
`m[k] = v`; lookup is `lookupStr`. Iteration order of a Go map is
unspecified; the model fixes insertion order, which is immaterial to the
claims (all are about membership, not order). -/

/-- Lookup in an association list (model of Go map indexing). -/
def lookupStr {α : Type} (m : List (String × α)) (k : String) : Option α :=
  (m.find? (fun p => p.1 = k)).map (·.2)

/-- Go map assignment `m[k] = v`. -/
def upsert {α : Type} (m : List (String × α)) (k : String) (v : α) :
    List (String × α) :=
  if m.any (fun p => p.1 = k) then
    m.map (fun p => if p.1 = k then (k, v) else p)
  else m ++ [(k, v)]

/-- Go `m[k] = append(m[k], v)` for a map of slices. -/
def appendAt (m : List (String × List String)) (k : String) (v : String) :
    List (String × List String) :=
  upsert m k ((lookupStr m k).getD [] ++ [v])

/-! ### Source Extractor (`Parser`, src/ast/parser.go) -/

/-- The `Parser` component's state: parsed files keyed by file path
(`p.files` in `parser.go`; the `token.FileSet` carries no information the
claims need). -/
structure ParserSt where
  files : List (String × GoNode)
  deriving Repr

/-- The empty parser produced by `NewParser`. -/
def NewParser : ParserSt := ⟨[]⟩

/-- A file-system entry as `ParsePath` observes it: a single Go file or a
directory of Go files, each carrying its parse outcome (`go/parser` either
yields a tree or a syntax/read error). -/
inductive FSEntry where
  | file (res : Except String GoNode)
  | dir (entries : List (String × Except String GoNode))

/-- File system model: paths mapped to entries; `os.Stat` fails on paths not
present. -/
abbrev FileSys := List (String × FSEntry)

/-- Model of `go/parser.ParseDir`: parses every file of the directory,
skipping files that fail to parse while remembering the first error, and
returns the successfully parsed files together with that first error (the
Go function returns partial `pkgs` and `first error`). -/
def parseDirModel (entries : List (String × Except String GoNode)) :
    List (String × GoNode) × Option String :=
  entries.foldl
    (fun acc e =>
      match e.2 with
      | .ok f => (acc.1 ++ [(e.1, f)], acc.2)
      | .error msg => (acc.1, acc.2 <|> some msg))
    ([], none)

/-- Model of `Parser.ParsePath` from `parser.go`: stats the path; for a directory runs
`parser.ParseDir` and, on any error, returns it *without storing any file*;
on success stores all parsed files keyed by filename. For a single file,
parses it and stores it under the given path. -/
def ParserSt.ParsePath (fs : FileSys) (p : ParserSt) (path : String) :
    Except String ParserSt :=
  match lookupStr fs path with
  | none => .error ("checking path: " ++ path)
  | some (.dir entries) =>
    match parseDirModel entries with
    | (_, some msg) => .error ("parsing directory: " ++ msg)
    | (parsed, none) =>
      .ok ⟨parsed.foldl (fun m e => upsert m e.1 e.2) p.files⟩
  | some (.file res) =>
    match res with
    | .error msg => .error ("parsing file: " ++ msg)
    | .ok f => .ok ⟨upsert p.files path f⟩

/-- Model of `Parser.GetPackages`: distinct package names across parsed files (backed
by a `map[string]bool` in Go; deduplication order is fixed here to first
occurrence). -/
def ParserSt.GetPackages (p : ParserSt) : List String :=
  (p.files.filterMap (fun e =>
    match e.2 with
    | .file (some name) _ _ => some name
    | _ => none)).dedup

/-- Strip the surrounding quote characters of an import path literal:
`path[1 : len(path)-1]` in `GetImports` (drop the first and last character;
Go slices bytes, which coincides with characters here because the delimiters
are single-byte quotes). -/
def stripQuotes (s : String) : String :=
  String.mk ((s.data.drop 1).dropLast)

/-- Model of `Parser.GetImports`: map from package name to import paths with quotes
stripped. -/
def ParserSt.GetImports (p : ParserSt) : List (String × List String) :=
  p.files.foldl
    (fun imports e =>
      match e.2 with
      | .file (some pkg) imps _ =>
        imps.foldl (fun m i => appendAt m pkg (stripQuotes i.2)) imports
      | _ => imports)
    []

/-- Model of `Parser.GetTypes`: every `TypeSpec` node found by `ast.Inspect` over every
parsed file, as (name, underlying type) pairs. -/
def ParserSt.GetTypes (p : ParserSt) : List (String × GoNode) :=
  p.files.foldl
    (fun acc e =>
      acc ++ (GoNode.allNodes e.2).filterMap (fun n =>
        match n with
        | .typeSpec name ty => some (name, ty)
        | _ => none))
    []

/-- Model of `Parser.GetFunctions`: every `FuncDecl` node found by `ast.Inspect` over
every parsed file, as (name, receiver) pairs. -/
def ParserSt.GetFunctions (p : ParserSt) : List (String × Option String) :=
  p.files.foldl
    (fun acc e =>
      acc ++ (GoNode.allNodes e.2).filterMap (fun n =>
        match n with
        | .funcDecl name recv _ => some (name, recv)
        | _ => none))
    []

/-! ### Relationship Analyzer (`Analyzer`, src/ast/parser.go) -/

/-- Model of `TypeInfo` from `parser.go`. -/
structure TypeInfo where
  Name : String
  IsStruct : Bool := false
  IsInterface : Bool := false
  Methods : List String := []
  Embedded : List String := []
  deriving Repr, DecidableEq

/-- The `Analyzer` component's state: an optional attached parser (`a.parser`,
nil until `SetParser`) and the three derived tables. -/
structure AnalyzerSt where
  parser : Option ParserSt
  types : List (String × TypeInfo) := []
  calls : List (String × List String) := []
  uses : List (String × List String) := []

/-- Model of `NewAnalyzer`: no parser attached, empty tables. -/
def NewAnalyzer : AnalyzerSt := { parser := none }

/-- Model of `Analyzer.SetParser`. -/
def AnalyzerSt.SetParser (a : AnalyzerSt) (p : ParserSt) : AnalyzerSt :=
  { a with parser := some p }

/-- The body of `analyzeTypes` for one `TypeSpec`: classify as struct
(recording embedded-field type strings) or interface (recording method
names); any other underlying type leaves both flags false. -/
def classifyTypeSpec (name : String) (ty : GoNode) : TypeInfo :=
  match ty with
  | .structType fields =>
    { Name := name, IsStruct := true,
      Embedded := fields.filterMap (fun f =>
        match f with
        | .field [] fty => some (getTypeString fty)
        | _ => none) }
  | .interfaceType methods =>
    { Name := name, IsInterface := true,
      Methods := methods.filterMap (fun m =>
        match m with
        | .field (n :: _) _ => some n
        | _ => none) }
  | _ => { Name := name }

/-- Model of `analyzeTypes`: classify every type spec and store it in the types table
under its name (`a.types[info.Name] = info`). -/
def analyzeTypesRun (p : ParserSt) (table : List (String × TypeInfo)) :
    List (String × TypeInfo) :=
  p.GetTypes.foldl
    (fun tbl e =>
      let info := classifyTypeSpec e.1 e.2
      upsert tbl info.Name info)
    table

/-- The call sites recorded by `analyzeCalls` in one file: for every
`CallExpr` whose function is a plain identifier, the pair
(`getCurrentFunction` at the call node, callee name), kept only when the
caller name is nonempty. -/
def callSites (root : GoNode) : List (String × String) :=
  (GoNode.allNodes root).filterMap (fun n =>
    match n with
    | .callExpr (.ident callee) _ =>
      let caller := getCurrentFunction n
      if caller ≠ "" then some (caller, callee) else none
    | _ => none)

/-- Model of `analyzeCalls`: append each recorded call site to the calls table. -/
def analyzeCallsRun (p : ParserSt) (table : List (String × List String)) :
    List (String × List String) :=
  p.files.foldl
    (fun tbl e =>
      (callSites e.2).foldl (fun t c => appendAt t c.1 c.2) tbl)
    table

/-- Whether a node models a Go `ast.Expr` (the type assertion
`n.(ast.Expr)` in `analyzeUses`). -/
def isExprNode : GoNode → Bool
  | .ident _ => true
  | .starExpr _ => true
  | .selectorExpr _ _ => true
  | .callExpr _ _ => true
  | .structType _ => true
  | .interfaceType _ => true
  | .otherType => true
  | _ => false

/-- The usage sites recorded by `analyzeUses` in one file: every expression
whose type string names a classified type, attributed to
`getCurrentFunction`, kept when the context is nonempty. -/
def useSites (types : List (String × TypeInfo)) (root : GoNode) :
    List (String × String) :=
  (GoNode.allNodes root).filterMap (fun n =>
    if isExprNode n then
      let typeName := getTypeString n
      if typeName ≠ "" then
        match lookupStr types typeName with
        | some info =>
          let context := getCurrentFunction n
          if context ≠ "" then some (context, info.Name) else none
        | none => none
      else none
    else none)

/-- Model of `analyzeUses`: append each recorded usage site to the uses table. -/
def analyzeUsesRun (p : ParserSt) (types : List (String × TypeInfo))
    (table : List (String × List String)) : List (String × List String) :=
  p.files.foldl
    (fun tbl e =>
      (useSites types e.2).foldl (fun t c => appendAt t c.1 c.2) tbl)
    table

/-- Model of `Analyzer.Analyze`: fails with "parser not set" when no parser is
attached; otherwise runs `analyzeTypes`, `analyzeCalls`, `analyzeUses` in
order, each accumulating into the analyzer's tables. -/
def AnalyzerSt.Analyze (a : AnalyzerSt) : Except String AnalyzerSt :=
  match a.parser with
  | none => .error "parser not set"
  | some p =>
    let types := analyzeTypesRun p a.types
    let calls := analyzeCallsRun p a.calls
    let uses := analyzeUsesRun p types a.uses
    .ok { a with types := types, calls := calls, uses := uses }

/-! ### Graph store (external collaborator, modelled at its interface)

The persistent store is out of the repository's scope (spec section 6):
`AddNode` returns a fresh opaque identifier and `AddLink` records a typed
directed edge. The model's store always succeeds on writes (`StoreError` is a
store-side failure, not decided by this repository's code); metadata is
modelled as a record of the keys the spec lists in use. -/

/-- Node type string constants from `module.go` / part_002. -/
def NodeTypePackage : String := "ast.package"

def NodeTypeFunction : String := "ast.function"

def NodeTypeStruct : String := "ast.struct"

def NodeTypeInterface : String := "ast.interface"

def NodeTypeField : String := "ast.field"

def NodeTypeMethod : String := "ast.method"

def NodeTypeImport : String := "ast.import"

/-- Link type string constants from part_002 (`LinkTypeEmbeds`,
`LinkTypeUses`) and `module.go` (`LinkTypeExtends`, `LinkTypeReferences`). -/
def LinkTypeCalls : String := "ast.calls"

def LinkTypeImplements : String := "ast.implements"

def LinkTypeContains : String := "ast.contains"

def LinkTypeImports : String := "ast.imports"

def LinkTypeEmbeds : String := "ast.embeds"

def LinkTypeUses : String := "ast.uses"

/-- Metadata attached to a node: the keys the spec lists as in use. -/
structure NodeMeta where
  name : Option String := none
  pos : Option String := none
  receiver : Option String := none
  methods : Option (List String) := none
  embedded : Option (List String) := none
  path : Option String := none
  aliasName : Option String := none
  filename : Option String := none
  deriving Repr, DecidableEq

/-- A stored graph node. -/
structure NodeRec where
  id : String
  content : String
  nodeType : String
  meta : NodeMeta
  deriving Repr, DecidableEq

/-- A stored graph link. -/
structure LinkRec where
  source : String
  target : String
  linkType : String
  deriving Repr, DecidableEq

/-- The graph store's state. -/
structure Store where
  nodes : List NodeRec := []
  links : List LinkRec := []
  nextId : Nat := 0
  deriving Repr

/-- The empty store. -/
def Store.empty : Store := {}

/-- Model of `AddNode`: assigns a fresh opaque identifier, appends the node. -/
def Store.AddNode (s : Store) (content : String) (nodeType : String)
    (meta : NodeMeta) : String × Store :=
  let id := "n" ++ toString s.nextId
  (id, { s with nodes := s.nodes ++ [⟨id, content, nodeType, meta⟩],
                nextId := s.nextId + 1 })

/-- Model of `AddLink`: appends a typed directed edge. -/
def Store.AddLink (s : Store) (src tgt ty : String) : Store :=
  { s with links := s.links ++ [⟨src, tgt, ty⟩] }

/-! ### Graph Builder (`GraphBuilder`, src/ast/parser.go) -/

/-- The `GraphBuilder` component's state: an optional attached analyzer
(`g.analyzer`, nil until `SetAnalyzer`) and the three name→identifier
indices. -/
structure BuilderSt where
  analyzer : Option AnalyzerSt
  packages : List (String × String) := []
  types : List (String × String) := []
  functions : List (String × String) := []

/-- Model of `NewGraphBuilder`: no analyzer attached, empty indices. -/
def NewGraphBuilder : BuilderSt := { analyzer := none }

/-- Model of `GraphBuilder.SetAnalyzer`. -/
def BuilderSt.SetAnalyzer (g : BuilderSt) (a : AnalyzerSt) : BuilderSt :=
  { g with analyzer := some a }

/-- One iteration of the `buildPackages` loop: add a package node, index its
identifier. -/
def buildPackagesStep (acc : BuilderSt × Store) (pkg : String) :
    BuilderSt × Store :=
  let r := acc.2.AddNode pkg NodeTypePackage { name := some pkg }
  ({ acc.1 with packages := upsert acc.1.packages pkg r.1 }, r.2)

/-- Model of `buildPackages`: one node per distinct package name. -/
def buildPackages (p : ParserSt) (g : BuilderSt) (s : Store) :
    BuilderSt × Store :=
  p.GetPackages.foldl buildPackagesStep (g, s)

/-- One iteration of the `buildTypes` loop: add a type node (interface when
`IsInterface`, struct otherwise — also for classifications where both flags
are false), index its identifier. -/
def buildTypesStep (acc : BuilderSt × Store) (e : String × TypeInfo) :
    BuilderSt × Store :=
  let nodeType := if e.2.IsInterface then NodeTypeInterface else NodeTypeStruct
  let r := acc.2.AddNode e.1 nodeType
    { name := some e.1, methods := some e.2.Methods,
      embedded := some e.2.Embedded }
  ({ acc.1 with types := upsert acc.1.types e.1 r.1 }, r.2)

/-- Model of `buildTypes`: one node per `TypeInfo` in the analyzer's table. -/
def buildTypes (types : List (String × TypeInfo)) (g : BuilderSt) (s : Store) :
    BuilderSt × Store :=
  types.foldl buildTypesStep (g, s)

/-- One iteration of the `buildFunctions` loop: add a function node with the
receiver type string in the metadata when present, index its identifier. -/
def buildFunctionsStep (acc : BuilderSt × Store) (e : String × Option String) :
    BuilderSt × Store :=
  let r := acc.2.AddNode e.1 NodeTypeFunction { name := some e.1, receiver := e.2 }
  ({ acc.1 with functions := upsert acc.1.functions e.1 r.1 }, r.2)

/-- Model of `buildFunctions`: one node per function/method declaration. -/
def buildFunctions (p : ParserSt) (g : BuilderSt) (s : Store) :
    BuilderSt × Store :=
  p.GetFunctions.foldl buildFunctionsStep (g, s)

/-- Inner loop of the calls-edge pass: one callee of a resolved caller. -/
def relCallsInner (g : BuilderSt) (callerID : String) (st : Store)
    (callee : String) : Store :=
  match lookupStr g.functions callee with
  | none => st
  | some calleeID => st.AddLink callerID calleeID LinkTypeCalls

/-- Outer loop of the calls-edge pass: one caller's list of callees;
unresolved caller names are skipped. -/
def relCallsStep (g : BuilderSt) (st : Store) (e : String × List String) :
    Store :=
  match lookupStr g.functions e.1 with
  | none => st
  | some callerID => e.2.foldl (relCallsInner g callerID) st

/-- Inner loop of the embeds-edge pass: one embedded name of a resolved
type; unresolved embedded names are skipped. -/
def relEmbedsInner (g : BuilderSt) (typeID : String) (st : Store)
    (embedded : String) : Store :=
  match lookupStr g.types embedded with
  | none => st
  | some embeddedID => st.AddLink typeID embeddedID LinkTypeEmbeds

/-- Outer loop of the embeds-edge pass: one `TypeInfo`'s embedded list. -/
def relEmbedsStep (g : BuilderSt) (st : Store) (e : String × TypeInfo) :
    Store :=
  match lookupStr g.types e.1 with
  | none => st
  | some typeID => e.2.Embedded.foldl (relEmbedsInner g typeID) st

/-- Inner loop of the uses-edge pass: one used type of a resolved context. -/
def relUsesInner (g : BuilderSt) (contextID : String) (st : Store)
    (used : String) : Store :=
  match lookupStr g.types used with
  | none => st
  | some usedID => st.AddLink contextID usedID LinkTypeUses

/-- Outer loop of the uses-edge pass: one context's list of used types. -/
def relUsesStep (g : BuilderSt) (st : Store) (e : String × List String) :
    Store :=
  match lookupStr g.functions e.1 with
  | none => st
  | some contextID => e.2.foldl (relUsesInner g contextID) st

/-- Model of `buildRelationships`: calls edges (both caller and callee must resolve in
the functions index), embeds edges (type and embedded name must resolve in
the types index) and uses edges (context in functions, used name in types);
unresolved names are skipped silently and never reported. -/
def buildRelationships (a : AnalyzerSt) (g : BuilderSt) (s : Store) : Store :=
  let s1 := a.calls.foldl (relCallsStep g) s
  let s2 := a.types.foldl (relEmbedsStep g) s1
  a.uses.foldl (relUsesStep g) s2

/-- Model of `GraphBuilder.Build`: fails with "analyzer not set" when no analyzer is
attached (the only check the code performs); otherwise runs the four stages
in order. Reading `g.analyzer.parser` when the attached analyzer has no
parser dereferences a nil pointer in Go (a runtime panic, not an error);
that path is modelled as a distinguished error and is unreachable through
the façade, which always wires a parser. -/
def BuilderSt.Build (g : BuilderSt) (s : Store) :
    Except String (BuilderSt × Store) :=
  match g.analyzer with
  | none => .error "analyzer not set"
  | some a =>
    match a.parser with
    | none => .error "runtime panic: nil parser dereference"
    | some p =>
      let (g1, s1) := buildPackages p g s
      let (g2, s2) := buildTypes a.types g1 s1
      let (g3, s3) := buildFunctions p g2 s2
      .ok (g3, buildRelationships a g3 s3)

/-! ### Module Façade (`AST`, src/unnamed/part_002) -/

/-- The façade's wired state after `Init`: a parser, an analyzer holding a
reference to that parser, a builder holding a reference to that analyzer,
and the graph store. References are modelled by re-threading the pointed-to
state. -/
structure FacadeSt where
  parser : ParserSt
  analyzer : AnalyzerSt
  builder : BuilderSt
  store : Store

/-- Model of `AST.Init`: fresh components, analyzer wired to parser, builder wired to
analyzer. -/
def FacadeInit (s : Store) : FacadeSt :=
  let p := NewParser
  let a := NewAnalyzer.SetParser p
  { parser := p, analyzer := a, builder := NewGraphBuilder.SetAnalyzer a,
    store := s }

/-- A façade error, tagged with the stage whose failure produced it (the
`fmt.Errorf` wrapping prefixes in `Parse`). -/
inductive FacadeErr where
  | parsing (msg : String)
  | analyzing (msg : String)
  | building (msg : String)
  deriving Repr, DecidableEq

/-- Model of `AST.Parse` from part_002: runs `parser.ParsePath`, then
`analyzer.Analyze`, then `builder.Build`, returning at the first failing
stage with that stage's wrapped error; pointer aliasing means each stage
observes the previous stage's mutations. -/
def FacadeSt.Parse (fs : FileSys) (m : FacadeSt) (path : String) :
    Except FacadeErr FacadeSt × FacadeSt :=
  match m.parser.ParsePath fs path with
  | .error e => (.error (.parsing e), m)
  | .ok p2 =>
    let m1 := { m with parser := p2,
                       analyzer := { m.analyzer with parser := some p2 } }
    match m1.analyzer.Analyze with
    | .error e => (.error (.analyzing e), m1)
    | .ok a2 =>
      let m2 := { m1 with analyzer := a2,
                          builder := { m1.builder with analyzer := some a2 } }
      match m2.builder.Build m2.store with
      | .error e => (.error (.building e), m2)
      | .ok (g2, s2) =>
        (.ok { m2 with builder := g2, store := s2 },
         { m2 with builder := g2, store := s2 })

/-- Modelled from the spec: the external graph store's
`GetNode(idOrName) -> (node, error)` (spec sections 6 and 7) — returns the
node whose identifier or content/name matches, and a `NotFoundError` when
the name is absent from the store. The store implementation lives outside
this repository; only this interface behavior is specified. -/
def Store.GetNode (s : Store) (idOrName : String) : Except String NodeRec :=
  match s.nodes.find? (fun n => n.id = idOrName || n.content = idOrName) with
  | some n => .ok n
  | none => .error "node not found"

/-- Modelled from the spec: the external graph store's
`GetLinks(nodeID) -> ([]link, error)` (spec section 6) — the links incident
to the node (the spec's query helpers traverse both outgoing `calls` edges
and incoming `implements` edges through this call). -/
def Store.GetLinks (s : Store) (id : String) : Except String (List LinkRec) :=
  .ok (s.links.filter (fun l => l.source = id || l.target = id))

/-- Model of `AST.ShowTypes` from part_002: the printed lines, or the wrapped error
when `GetNode` fails. A node of a non-type kind prints nothing. -/
def ShowTypes (s : Store) (typeName : String) : Except String (List String) :=
  match s.GetNode typeName with
  | .error e => .error ("querying nodes: " ++ e)
  | .ok node =>
    if node.nodeType = NodeTypeStruct || node.nodeType = NodeTypeInterface then
      .ok ([(node.meta.name.getD "") ++ ": " ++ node.nodeType] ++
        (match node.meta.methods with
         | some ms => ["  Methods: " ++ String.intercalate " " ms]
         | none => []) ++
        (match node.meta.embedded with
         | some es => ["  Embedded: " ++ String.intercalate " " es]
         | none => []))
    else .ok []

/-- Model of `AST.ShowCalls` from part_002: the printed lines, or the wrapped error
when `GetNode` fails; a failing callee lookup inside the loop is skipped. -/
def ShowCalls (s : Store) (funcName : String) : Except String (List String) :=
  match s.GetNode funcName with
  | .error e => .error ("getting function: " ++ e)
  | .ok node =>
    if node.nodeType = NodeTypeFunction then
      match s.GetLinks node.id with
      | .error e => .error ("getting links: " ++ e)
      | .ok links =>
        .ok ([(node.meta.name.getD "") ++ ":"] ++
          links.filterMap (fun l =>
            if l.linkType = LinkTypeCalls then
              match s.GetNode l.target with
              | .ok callee => some ("  calls: " ++ (callee.meta.name.getD ""))
              | .error _ => none
            else none))
    else .ok []

/-- Model of `AST.ShowImplementations` from part_002: the printed lines, or the
wrapped error when `GetNode` fails. -/
def ShowImplementations (s : Store) (interfaceName : String) :
    Except String (List String) :=
  match s.GetNode interfaceName with
  | .error e => .error ("getting interface: " ++ e)
  | .ok node =>
    if node.nodeType = NodeTypeInterface then
      match s.GetLinks node.id with
      | .error e => .error ("getting links: " ++ e)
      | .ok links =>
        .ok (links.filterMap (fun l =>
          if l.linkType = LinkTypeImplements then
            match s.GetNode l.source with
            | .ok impl =>
              some ((impl.meta.name.getD "") ++ " implements " ++ interfaceName)
            | .error _ => none
          else none))
    else .ok []

/-- Model of `AST.ShowDependencies` from part_002: the printed lines, or the wrapped
error when `GetNode` fails. -/
def ShowDependencies (s : Store) (pkgPath : String) :
    Except String (List String) :=
  match s.GetNode pkgPath with
  | .error e => .error ("getting package: " ++ e)
  | .ok node =>
    if node.nodeType = NodeTypePackage then
      match s.GetLinks node.id with
      | .error e => .error ("getting links: " ++ e)
      | .ok links =>
        .ok ([(node.meta.path.getD "") ++ ":"] ++
          links.filterMap (fun l =>
            if l.linkType = LinkTypeImports then
              match s.GetNode l.target with
              | .ok dep => some ("  imports: " ++ (dep.meta.path.getD ""))
              | .error _ => none
            else none))
    else .ok []

/-! ### The standalone `Module` (src/ast/module.go)

An earlier generation of the pipeline: `Module.ParseFile` parses one file
and stores package, import, function, struct, interface and field nodes
directly, without the analyzer. Its import nodes store the raw path literal
`imp.Path.Value` *including* the surrounding quotes. -/

/-- Model of `getTypeString` from `module.go` (the variant whose default case prints
the dynamic type via `%T`; array and map types are outside the embedded
node grammar, and the default is an opaque nonempty descriptor). -/
def getTypeStringM : GoNode → String
  | .ident n => n
  | .starExpr x => "*" ++ getTypeStringM x
  | .selectorExpr x sel => getTypeStringM x ++ "." ++ sel
  | e => "%!T(" ++ (repr e).pretty 1000000 ++ ")"

/-- Model of `Module.processDecl`: function declarations become function nodes linked
from the package by `contains`; struct and interface type specs become
struct/interface nodes with `contains` links, and each struct field becomes
a field node linked from the struct. -/
def processDecl (pkgID : String) (s : Store) : GoNode → Store
  | .funcDecl name recv _ =>
    let (funcID, s1) := s.AddNode name NodeTypeFunction
      { name := some name, pos := some "", receiver := recv }
    s1.AddLink pkgID funcID LinkTypeContains
  | .genDecl specs =>
    specs.foldl
      (fun st sp =>
        match sp with
        | .typeSpec name (.structType fields) =>
          let (structID, st1) := st.AddNode name NodeTypeStruct
            { name := some name, pos := some "" }
          let st2 := st1.AddLink pkgID structID LinkTypeContains
          fields.foldl
            (fun st3 f =>
              match f with
              | .field names fty =>
                let tyStr := getTypeStringM fty
                let (fieldID, st4) := st3.AddNode tyStr NodeTypeField
                  { name := names.head?, pos := some "" }
                st4.AddLink structID fieldID LinkTypeContains
              | _ => st3)
            st2
        | .typeSpec name (.interfaceType _) =>
          let (interfaceID, st1) := st.AddNode name NodeTypeInterface
            { name := some name, pos := some "" }
          st1.AddLink pkgID interfaceID LinkTypeContains
        | _ => st)
      s
  | _ => s

/-- Model of `Module.ParseFile` from `module.go`: parses the file, adds a package
node, then for every import adds an import node whose content and `path`
metadata are the *raw* literal `imp.Path.Value` (quotes not stripped) plus
an `imports` link, then processes the declarations. A file whose package
clause failed to parse dereferences nil in Go; the model requires a named
package. -/
def ModuleParseFile (fs : FileSys) (s : Store) (filename : String) :
    Except String Store :=
  match lookupStr fs filename with
  | some (.file (.ok (.file (some pkg) imports decls))) =>
    let (pkgID, s1) := s.AddNode pkg NodeTypePackage
      { filename := some filename }
    let s2 := imports.foldl
      (fun st imp =>
        let importPath := imp.2
        let (importID, st1) := st.AddNode importPath NodeTypeImport
          { path := some importPath, aliasName := imp.1 }
        st1.AddLink pkgID importID LinkTypeImports)
      s1
    .ok (decls.foldl (fun st d => processDecl pkgID st d) s2)
  | some (.file (.error msg)) => .error ("parsing file: " ++ msg)
  | _ => .error "parsing file: invalid input"

/-! ### General lemmas about the association-list and store operations -/

theorem foldl_preserve {α σ : Type _} {step : σ → α → σ} {P : σ → Prop}
    (h : ∀ s a, P s → P (step s a)) :
    ∀ (l : List α) (s : σ), P s → P (l.foldl step s) := by
  intro l
  induction l with
  | nil => intro s hs; exact hs
  | cons a as ih => intro s hs; exact ih _ (h s a hs)

theorem lookupStr_upsert {α : Type} (m : List (String × α)) (k k' : String)
    (v : α) :
    lookupStr (upsert m k v) k' = if k' = k then some v else lookupStr m k' := by
  unfold upsert lookupStr
  by_cases hany : m.any (fun p => p.1 = k)
  · simp only [hany, if_true]
    rw [List.find?_map]
    by_cases hk : k' = k
    · subst hk
      have hpred :
          ((fun p : String × α => decide (p.1 = k')) ∘
            (fun p => if p.1 = k' then (k', v) else p)) =
            fun p : String × α => decide (p.1 = k') := by
        funext q
        by_cases hq : q.1 = k' <;> simp [hq]
      rw [hpred]
      rw [List.any_eq_true] at hany
      obtain ⟨q, hqm, hqk⟩ := hany
      have hsome : (m.find? fun p : String × α => decide (p.1 = k')).isSome := by
        rw [List.find?_isSome]
        exact ⟨q, hqm, hqk⟩
      obtain ⟨q0, hq0⟩ := Option.isSome_iff_exists.mp hsome
      have hq0k : q0.1 = k' := by simpa using List.find?_some hq0
      simp [hq0, hq0k]
    · have hpred :
          ((fun p : String × α => decide (p.1 = k')) ∘
            (fun p => if p.1 = k then (k, v) else p)) =
            fun p : String × α => decide (p.1 = k') := by
        funext q
        by_cases hq : q.1 = k
        · simp [hq, Ne.symm hk]
        · simp [hq]
      rw [hpred, if_neg hk]
      cases hfind : m.find? (fun p : String × α => decide (p.1 = k')) with
      | none => simp
      | some q0 =>
        have hq0k : q0.1 = k' := by simpa using List.find?_some hfind
        have : ¬ q0.1 = k := by rw [hq0k]; exact hk
        simp [this]
  · simp only [hany, Bool.false_eq_true, if_false]
    rw [List.find?_append]
    by_cases hk : k' = k
    · subst hk
      have hnone : m.find? (fun p : String × α => decide (p.1 = k')) = none := by
        rw [List.find?_eq_none]
        intro q hq
        rw [List.any_eq_true] at hany
        push_neg at hany
        simpa using hany q hq
      simp [hnone, List.find?]
    · cases hfind : m.find? (fun p : String × α => decide (p.1 = k')) with
      | none => simp [hfind, List.find?, hk, Ne.symm hk]
      | some q0 => simp [hfind, hk]

theorem lookupStr_upsert_self {α : Type} (m : List (String × α)) (k : String)
    (v : α) : lookupStr (upsert m k v) k = some v := by
  rw [lookupStr_upsert]
  simp

theorem lookupStr_upsert_other {α : Type} (m : List (String × α))
    (k k' : String) (v : α) (hne : k' ≠ k) :
    lookupStr (upsert m k v) k' = lookupStr m k' := by
  rw [lookupStr_upsert, if_neg hne]

theorem lookupStr_upsert_isSome {α : Type} (m : List (String × α))
    (k k' : String) (v : α) (h : (lookupStr m k').isSome) :
    (lookupStr (upsert m k v) k').isSome := by
  rw [lookupStr_upsert]
  by_cases hk : k' = k <;> simp [hk, h]

/-! ### The calls and uses tables are always empty

Because `findParent` never returns a parent, `getCurrentFunction` returns a
nonempty name only when applied to a `FuncDecl` node itself — and
`analyzeCalls` applies it to `CallExpr` nodes, `analyzeUses` to expression
nodes, none of which are `FuncDecl`s. -/

theorem callSites_eq_nil (root : GoNode) : callSites root = [] := by
  unfold callSites
  rw [List.filterMap_eq_nil_iff]
  intro n _
  cases n with
  | callExpr fn args => cases fn <;> simp [getCurrentFunction_eq]
  | _ => rfl

theorem useSites_eq_nil (types : List (String × TypeInfo)) (root : GoNode) :
    useSites types root = [] := by
  unfold useSites
  rw [List.filterMap_eq_nil_iff]
  intro n _
  cases n <;>
    simp [isExprNode, getCurrentFunction_eq] <;>
    intro _ <;>
    (cases (lookupStr types _) <;> simp)

theorem analyzeCallsRun_eq (p : ParserSt) (tbl : List (String × List String)) :
    analyzeCallsRun p tbl = tbl := by
  unfold analyzeCallsRun
  have h : ∀ (fs : List (String × GoNode)) (t : List (String × List String)),
      fs.foldl
        (fun tbl e => (callSites e.2).foldl (fun t c => appendAt t c.1 c.2) tbl)
        t = t := by
    intro fs
    induction fs with
    | nil => intro t; rfl
    | cons e es ih =>
      intro t
      rw [List.foldl_cons, callSites_eq_nil]
      exact ih t
  exact h p.files tbl

theorem analyzeUsesRun_eq (p : ParserSt) (types : List (String × TypeInfo))
    (tbl : List (String × List String)) :
    analyzeUsesRun p types tbl = tbl := by
  unfold analyzeUsesRun
  have h : ∀ (fs : List (String × GoNode)) (t : List (String × List String)),
      fs.foldl
        (fun tbl e =>
          (useSites types e.2).foldl (fun t c => appendAt t c.1 c.2) tbl)
        t = t := by
    intro fs
    induction fs with
    | nil => intro t; rfl
    | cons e es ih =>
      intro t
      rw [List.foldl_cons, useSites_eq_nil]
      exact ih t
  exact h p.files tbl

/-- Running `Analyze` on an attached parser always succeeds, with an unchanged calls
table and uses table (they can never receive entries). -/
theorem Analyze_ok (a : AnalyzerSt) (p : ParserSt) (h : a.parser = some p) :
    a.Analyze = .ok { a with types := analyzeTypesRun p a.types } := by
  unfold AnalyzerSt.Analyze
  rw [h]
  simp [analyzeCallsRun_eq, analyzeUsesRun_eq]

/-! ### Frame lemmas for the build stages -/

theorem AddNode_links (s : Store) (c t : String) (m : NodeMeta) :
    (s.AddNode c t m).2.links = s.links := rfl

theorem AddLink_links (s : Store) (src tgt ty : String) :
    (s.AddLink src tgt ty).links = s.links ++ [⟨src, tgt, ty⟩] := rfl

theorem buildPackagesStep_links (acc : BuilderSt × Store) (pkg : String) :
    (buildPackagesStep acc pkg).2.links = acc.2.links := rfl

theorem buildTypesStep_links (acc : BuilderSt × Store) (e : String × TypeInfo) :
    (buildTypesStep acc e).2.links = acc.2.links := rfl

theorem buildFunctionsStep_links (acc : BuilderSt × Store)
    (e : String × Option String) :
    (buildFunctionsStep acc e).2.links = acc.2.links := rfl

theorem buildPackages_links (p : ParserSt) (g : BuilderSt) (s : Store) :
    (buildPackages p g s).2.links = s.links := by
  unfold buildPackages
  refine foldl_preserve (P := fun acc : BuilderSt × Store => acc.2.links = s.links)
    ?_ p.GetPackages (g, s) rfl
  intro acc pkg h
  rw [buildPackagesStep_links]
  exact h

theorem buildTypes_links (types : List (String × TypeInfo)) (g : BuilderSt)
    (s : Store) : (buildTypes types g s).2.links = s.links := by
  unfold buildTypes
  refine foldl_preserve (P := fun acc : BuilderSt × Store => acc.2.links = s.links)
    ?_ types (g, s) rfl
  intro acc e h
  rw [buildTypesStep_links]
  exact h

theorem buildFunctions_links (p : ParserSt) (g : BuilderSt) (s : Store) :
    (buildFunctions p g s).2.links = s.links := by
  unfold buildFunctions
  refine foldl_preserve (P := fun acc : BuilderSt × Store => acc.2.links = s.links)
    ?_ p.GetFunctions (g, s) rfl
  intro acc e h
  rw [buildFunctionsStep_links]
  exact h

theorem buildPackages_types (p : ParserSt) (g : BuilderSt) (s : Store) :
    (buildPackages p g s).1.types = g.types := by
  unfold buildPackages
  refine foldl_preserve (P := fun acc : BuilderSt × Store => acc.1.types = g.types)
    ?_ p.GetPackages (g, s) rfl
  intro acc pkg h
  simpa [buildPackagesStep] using h

theorem buildFunctions_types (p : ParserSt) (g : BuilderSt) (s : Store) :
    (buildFunctions p g s).1.types = g.types := by
  unfold buildFunctions
  refine foldl_preserve (P := fun acc : BuilderSt × Store => acc.1.types = g.types)
    ?_ p.GetFunctions (g, s) rfl
  intro acc e h
  simpa [buildFunctionsStep] using h

theorem buildTypesStep_types (acc : BuilderSt × Store) (e : String × TypeInfo) :
    (buildTypesStep acc e).1.types = upsert acc.1.types e.1
      (acc.2.AddNode e.1
        (if e.2.IsInterface then NodeTypeInterface else NodeTypeStruct)
        { name := some e.1, methods := some e.2.Methods,
          embedded := some e.2.Embedded }).1 := rfl

/-- After the `buildTypes` stage, every name in the analyzer's types table
resolves in the builder's name→identifier index. -/
theorem buildTypes_key (types : List (String × TypeInfo)) (g : BuilderSt)
    (s : Store) (n : String) (i : TypeInfo) (h : (n, i) ∈ types) :
    ∃ id, lookupStr (buildTypes types g s).1.types n = some id := by
  have hsome : ∀ (l : List (String × TypeInfo)) (acc : BuilderSt × Store),
      (lookupStr acc.1.types n).isSome →
      (lookupStr (l.foldl buildTypesStep acc).1.types n).isSome := by
    intro l
    induction l with
    | nil => intro acc hacc; exact hacc
    | cons x xs ihx =>
      intro acc hacc
      rw [List.foldl_cons]
      refine ihx _ ?_
      rw [buildTypesStep_types]
      exact lookupStr_upsert_isSome _ _ _ _ hacc
  have key : ∀ (l : List (String × TypeInfo)) (acc : BuilderSt × Store),
      (n, i) ∈ l →
      (lookupStr (l.foldl buildTypesStep acc).1.types n).isSome := by
    intro l
    induction l with
    | nil => intro acc hl; simp at hl
    | cons x xs ihx =>
      intro acc hl
      rw [List.mem_cons] at hl
      rw [List.foldl_cons]
      rcases hl with hl | hl
      · refine hsome xs _ ?_
        rw [buildTypesStep_types]
        have hx : x.1 = n := by rw [← hl]
        rw [hx, lookupStr_upsert_self]
        rfl
      · exact ihx _ hl
  have := key types (g, s) h
  rw [Option.isSome_iff_exists] at this
  obtain ⟨id, hid⟩ := this
  exact ⟨id, hid⟩

/-! ### Links added by the relationship pass: monotonicity and link types -/

theorem relCallsInner_mono (g : BuilderSt) (cid : String) (st : Store)
    (c : String) (l : LinkRec) (h : l ∈ st.links) :
    l ∈ (relCallsInner g cid st c).links := by
  unfold relCallsInner
  cases lookupStr g.functions c with
  | none => exact h
  | some calleeID => simp [Store.AddLink, h]

theorem relCallsStep_mono (g : BuilderSt) (st : Store) (e : String × List String)
    (l : LinkRec) (h : l ∈ st.links) : l ∈ (relCallsStep g st e).links := by
  unfold relCallsStep
  cases lookupStr g.functions e.1 with
  | none => exact h
  | some callerID =>
    exact foldl_preserve (P := fun s : Store => l ∈ s.links)
      (fun s c hs => relCallsInner_mono g callerID s c l hs) e.2 st h

theorem relEmbedsInner_mono (g : BuilderSt) (tid : String) (st : Store)
    (em : String) (l : LinkRec) (h : l ∈ st.links) :
    l ∈ (relEmbedsInner g tid st em).links := by
  unfold relEmbedsInner
  cases lookupStr g.types em with
  | none => exact h
  | some embeddedID => simp [Store.AddLink, h]

theorem relEmbedsStep_mono (g : BuilderSt) (st : Store) (e : String × TypeInfo)
    (l : LinkRec) (h : l ∈ st.links) : l ∈ (relEmbedsStep g st e).links := by
  unfold relEmbedsStep
  cases lookupStr g.types e.1 with
  | none => exact h
  | some typeID =>
    exact foldl_preserve (P := fun s : Store => l ∈ s.links)
      (fun s em hs => relEmbedsInner_mono g typeID s em l hs) e.2.Embedded st h

theorem relUsesInner_mono (g : BuilderSt) (cid : String) (st : Store)
    (u : String) (l : LinkRec) (h : l ∈ st.links) :
    l ∈ (relUsesInner g cid st u).links := by
  unfold relUsesInner
  cases lookupStr g.types u with
  | none => exact h
  | some usedID => simp [Store.AddLink, h]

theorem relUsesStep_mono (g : BuilderSt) (st : Store) (e : String × List String)
    (l : LinkRec) (h : l ∈ st.links) : l ∈ (relUsesStep g st e).links := by
  unfold relUsesStep
  cases lookupStr g.functions e.1 with
  | none => exact h
  | some contextID =>
    exact foldl_preserve (P := fun s : Store => l ∈ s.links)
      (fun s u hs => relUsesInner_mono g contextID s u l hs) e.2 st h

/-- Every link present after `buildRelationships` either was present before
or carries one of the three link types the pass creates; moreover a new
embeds link's target is an identifier from the builder's types index. -/
theorem buildRelationships_links (a : AnalyzerSt) (g : BuilderSt) (s : Store) :
    ∀ l ∈ (buildRelationships a g s).links,
      l ∈ s.links ∨
        ((l.linkType = LinkTypeCalls ∨ l.linkType = LinkTypeEmbeds ∨
            l.linkType = LinkTypeUses) ∧
          (l.linkType = LinkTypeEmbeds →
            ∃ tn tid, lookupStr g.types tn = some tid ∧ l.target = tid)) := by
  unfold buildRelationships
  set P : Store → Prop := fun st => ∀ l ∈ st.links,
    l ∈ s.links ∨
      ((l.linkType = LinkTypeCalls ∨ l.linkType = LinkTypeEmbeds ∨
          l.linkType = LinkTypeUses) ∧
        (l.linkType = LinkTypeEmbeds →
          ∃ tn tid, lookupStr g.types tn = some tid ∧ l.target = tid)) with hP
  have base : P s := fun l hl => Or.inl hl
  have hcallsInner : ∀ cid st c, P st → P (relCallsInner g cid st c) := by
    intro cid st c hst l hl
    unfold relCallsInner at hl
    cases hc : lookupStr g.functions c with
    | none => rw [hc] at hl; exact hst l hl
    | some calleeID =>
      rw [hc] at hl
      simp only [Store.AddLink, List.mem_append, List.mem_singleton] at hl
      rcases hl with hl | hl
      · exact hst l hl
      · subst hl
        refine Or.inr ⟨Or.inl rfl, ?_⟩
        intro habs
        exact absurd habs (by simp [LinkTypeCalls, LinkTypeEmbeds])
  have hcalls : ∀ st, P st → P (a.calls.foldl (relCallsStep g) st) := by
    intro st hst
    refine foldl_preserve ?_ a.calls st hst
    intro st2 e hst2
    unfold relCallsStep
    cases hc : lookupStr g.functions e.1 with
    | none => exact hst2
    | some callerID =>
      exact foldl_preserve (fun s2 c h2 => hcallsInner callerID s2 c h2) e.2 st2 hst2
  have hembedsInner : ∀ tid st em, P st → P (relEmbedsInner g tid st em) := by
    intro tid st em hst l hl
    unfold relEmbedsInner at hl
    cases hc : lookupStr g.types em with
    | none => rw [hc] at hl; exact hst l hl
    | some embeddedID =>
      rw [hc] at hl
      simp only [Store.AddLink, List.mem_append, List.mem_singleton] at hl
      rcases hl with hl | hl
      · exact hst l hl
      · subst hl
        exact Or.inr ⟨Or.inr (Or.inl rfl), fun _ => ⟨em, embeddedID, hc, rfl⟩⟩
  have hembeds : ∀ st, P st → P (a.types.foldl (relEmbedsStep g) st) := by
    intro st hst
    refine foldl_preserve ?_ a.types st hst
    intro st2 e hst2
    unfold relEmbedsStep
    cases hc : lookupStr g.types e.1 with
    | none => exact hst2
    | some typeID =>
      exact foldl_preserve (fun s2 em h2 => hembedsInner typeID s2 em h2)
        e.2.Embedded st2 hst2
  have husesInner : ∀ cid st u, P st → P (relUsesInner g cid st u) := by
    intro cid st u hst l hl
    unfold relUsesInner at hl
    cases hc : lookupStr g.types u with
    | none => rw [hc] at hl; exact hst l hl
    | some usedID =>
      rw [hc] at hl
      simp only [Store.AddLink, List.mem_append, List.mem_singleton] at hl
      rcases hl with hl | hl
      · exact hst l hl
      · subst hl
        refine Or.inr ⟨Or.inr (Or.inr rfl), ?_⟩
        intro habs
        exact absurd habs (by simp [LinkTypeUses, LinkTypeEmbeds])
  have huses : ∀ st, P st → P (a.uses.foldl (relUsesStep g) st) := by
    intro st hst
    refine foldl_preserve ?_ a.uses st hst
    intro st2 e hst2
    unfold relUsesStep
    cases hc : lookupStr g.functions e.1 with
    | none => exact hst2
    | some contextID =>
      exact foldl_preserve (fun s2 u h2 => husesInner contextID s2 u h2) e.2 st2 hst2
  exact huses _ (hembeds _ (hcalls _ base))

/-- The embeds link between two resolved types is present after the
relationship pass. -/
theorem relEmbeds_mem (g : BuilderSt)
    (types : List (String × TypeInfo)) (st : Store) (S T : String)
    (infoS : TypeInfo) (sid tid : String)
    (hmem : (S, infoS) ∈ types)
    (hS : lookupStr g.types S = some sid)
    (hT : lookupStr g.types T = some tid)
    (hTmem : T ∈ infoS.Embedded) :
    (⟨sid, tid, LinkTypeEmbeds⟩ : LinkRec) ∈
      (types.foldl (relEmbedsStep g) st).links := by
  have inner : ∀ (l : List String) (st2 : Store), T ∈ l →
      (⟨sid, tid, LinkTypeEmbeds⟩ : LinkRec) ∈
        (l.foldl (relEmbedsInner g sid) st2).links := by
    intro l
    induction l with
    | nil => intro st2 hl; simp at hl
    | cons x xs ihx =>
      intro st2 hl
      rw [List.mem_cons] at hl
      rw [List.foldl_cons]
      rcases hl with hl | hl
      · subst hl
        refine foldl_preserve
          (P := fun s2 : Store => (⟨sid, tid, LinkTypeEmbeds⟩ : LinkRec) ∈ s2.links)
          (fun s2 em h2 => relEmbedsInner_mono g sid s2 em _ h2) xs _ ?_
        unfold relEmbedsInner
        rw [hT]
        simp [Store.AddLink]
      · exact ihx _ hl
  have outer : ∀ (l : List (String × TypeInfo)) (st2 : Store), (S, infoS) ∈ l →
      (⟨sid, tid, LinkTypeEmbeds⟩ : LinkRec) ∈
        (l.foldl (relEmbedsStep g) st2).links := by
    intro l
    induction l with
    | nil => intro st2 hl; simp at hl
    | cons e es ihe =>
      intro st2 hl
      rw [List.mem_cons] at hl
      rw [List.foldl_cons]
      rcases hl with hl | hl
      · refine foldl_preserve
          (P := fun s2 : Store => (⟨sid, tid, LinkTypeEmbeds⟩ : LinkRec) ∈ s2.links)
          (fun s2 e2 h2 => relEmbedsStep_mono g s2 e2 _ h2) es _ ?_
        unfold relEmbedsStep
        rw [← hl]
        rw [show (S, infoS).1 = S from rfl, hS]
        exact inner infoS.Embedded st2 hTmem
      · exact ihe _ hl
  exact outer types st hmem

/-- The relationship pass appends its links after the pre-existing ones, and
every appended link is a calls, embeds or uses link (never implements);
appended embeds links target identifiers from the builder's types index. -/
theorem buildRelationships_decomp (a : AnalyzerSt) (g : BuilderSt) (s : Store) :
    ∃ suffix, (buildRelationships a g s).links = s.links ++ suffix ∧
      ∀ l ∈ suffix,
        (l.linkType = LinkTypeCalls ∨ l.linkType = LinkTypeEmbeds ∨
          l.linkType = LinkTypeUses) ∧
        (l.linkType = LinkTypeEmbeds →
          ∃ tn tid, lookupStr g.types tn = some tid ∧ l.target = tid) := by
  unfold buildRelationships
  set Q : LinkRec → Prop := fun l =>
    (l.linkType = LinkTypeCalls ∨ l.linkType = LinkTypeEmbeds ∨
      l.linkType = LinkTypeUses) ∧
    (l.linkType = LinkTypeEmbeds →
      ∃ tn tid, lookupStr g.types tn = some tid ∧ l.target = tid) with hQ
  set P : Store → Prop := fun st =>
    ∃ suffix, st.links = s.links ++ suffix ∧ ∀ l ∈ suffix, Q l with hP
  have base : P s := ⟨[], by simp⟩
  have hadd : ∀ (st : Store) (src tgt ty : String),
      Q ⟨src, tgt, ty⟩ → P st → P (st.AddLink src tgt ty) := by
    intro st src tgt ty hq ⟨suffix, hs, hall⟩
    refine ⟨suffix ++ [⟨src, tgt, ty⟩], ?_, ?_⟩
    · rw [AddLink_links, hs, List.append_assoc]
    · intro l hl
      rw [List.mem_append, List.mem_singleton] at hl
      rcases hl with hl | hl
      · exact hall l hl
      · subst hl; exact hq
  have hcallsInner : ∀ cid st c, P st → P (relCallsInner g cid st c) := by
    intro cid st c hst
    unfold relCallsInner
    cases hc : lookupStr g.functions c with
    | none => exact hst
    | some calleeID =>
      refine hadd st cid calleeID LinkTypeCalls ⟨Or.inl rfl, ?_⟩ hst
      intro habs
      exact absurd habs (by simp [LinkTypeCalls, LinkTypeEmbeds])
  have hembedsInner : ∀ tid st em, P st → P (relEmbedsInner g tid st em) := by
    intro tid st em hst
    unfold relEmbedsInner
    cases hc : lookupStr g.types em with
    | none => exact hst
    | some embeddedID =>
      exact hadd st tid embeddedID LinkTypeEmbeds
        ⟨Or.inr (Or.inl rfl), fun _ => ⟨em, embeddedID, hc, rfl⟩⟩ hst
  have husesInner : ∀ cid st u, P st → P (relUsesInner g cid st u) := by
    intro cid st u hst
    unfold relUsesInner
    cases hc : lookupStr g.types u with
    | none => exact hst
    | some usedID =>
      refine hadd st cid usedID LinkTypeUses ⟨Or.inr (Or.inr rfl), ?_⟩ hst
      intro habs
      exact absurd habs (by simp [LinkTypeUses, LinkTypeEmbeds])
  have hcalls : ∀ st, P st → P (a.calls.foldl (relCallsStep g) st) := by
    intro st hst
    refine foldl_preserve ?_ a.calls st hst
    intro st2 e hst2
    unfold relCallsStep
    cases lookupStr g.functions e.1 with
    | none => exact hst2
    | some callerID =>
      exact foldl_preserve (fun s2 c h2 => hcallsInner callerID s2 c h2) e.2 st2 hst2
  have hembeds : ∀ st, P st → P (a.types.foldl (relEmbedsStep g) st) := by
    intro st hst
    refine foldl_preserve ?_ a.types st hst
    intro st2 e hst2
    unfold relEmbedsStep
    cases lookupStr g.types e.1 with
    | none => exact hst2
    | some typeID =>
      exact foldl_preserve (fun s2 em h2 => hembedsInner typeID s2 em h2)
        e.2.Embedded st2 hst2
  have huses : ∀ st, P st → P (a.uses.foldl (relUsesStep g) st) := by
    intro st hst
    refine foldl_preserve ?_ a.uses st hst
    intro st2 e hst2
    unfold relUsesStep
    cases lookupStr g.functions e.1 with
    | none => exact hst2
    | some contextID =>
      exact foldl_preserve (fun s2 u h2 => husesInner contextID s2 u h2) e.2 st2 hst2
  exact huses _ (hembeds _ (hcalls _ base))

/-- The store reached by a `Build` call when it succeeds, and the unchanged
store when it fails. -/
def BuildStore (g : BuilderSt) (s : Store) : Store :=
  match g.Build s with
  | .ok r => r.2
  | .error _ => s

/-- The builder state reached by a successful `Build` call. -/
def BuildBuilder (g : BuilderSt) (s : Store) : BuilderSt :=
  match g.Build s with
  | .ok r => r.1
  | .error _ => g

/-- The staged composition a successful `Build` computes. -/
def BuildStages (a : AnalyzerSt) (p : ParserSt) (g : BuilderSt) (s : Store) :
    BuilderSt × Store :=
  let gs1 := buildPackages p g s
  let gs2 := buildTypes a.types gs1.1 gs1.2
  let gs3 := buildFunctions p gs2.1 gs2.2
  (gs3.1, buildRelationships a gs3.1 gs3.2)

/-- Running `Build` with a wired analyzer and parser succeeds with the staged
composition. -/
theorem Build_eq (g : BuilderSt) (a : AnalyzerSt) (p : ParserSt) (s : Store)
    (hg : g.analyzer = some a) (hp : a.parser = some p) :
    g.Build s = .ok (BuildStages a p g s) := by
  unfold BuilderSt.Build
  rw [hg]
  dsimp only
  rw [hp]
  rfl

/-- Any `Build` call (successful or failed) leaves the pre-existing links in
place and only appends calls, embeds and uses links. -/
theorem BuildStore_links_decomp (g : BuilderSt) (s : Store) :
    ∃ suffix, (BuildStore g s).links = s.links ++ suffix ∧
      ∀ l ∈ suffix,
        l.linkType = LinkTypeCalls ∨ l.linkType = LinkTypeEmbeds ∨
          l.linkType = LinkTypeUses := by
  unfold BuildStore
  cases hg : g.analyzer with
  | none =>
    have hb : g.Build s = .error "analyzer not set" := by
      unfold BuilderSt.Build
      rw [hg]
    rw [hb]
    exact ⟨[], by simp⟩
  | some a =>
    cases hp : a.parser with
    | none =>
      have hb : g.Build s = .error "runtime panic: nil parser dereference" := by
        unfold BuilderSt.Build
        rw [hg]
        dsimp only
        rw [hp]
      rw [hb]
      exact ⟨[], by simp⟩
    | some p =>
      rw [Build_eq g a p s hg hp]
      obtain ⟨suffix, hs, hall⟩ :=
        buildRelationships_decomp a (BuildStages a p g s).1
          (buildFunctions p
            (buildTypes a.types (buildPackages p g s).1 (buildPackages p g s).2).1
            (buildTypes a.types (buildPackages p g s).1 (buildPackages p g s).2).2).2
      refine ⟨suffix, ?_, fun l hl => (hall l hl).1⟩
      show (BuildStages a p g s).2.links = s.links ++ suffix
      have h2 : (BuildStages a p g s).2 =
          buildRelationships a (BuildStages a p g s).1
            (buildFunctions p
              (buildTypes a.types (buildPackages p g s).1 (buildPackages p g s).2).1
              (buildTypes a.types (buildPackages p g s).1 (buildPackages p g s).2).2).2 := rfl
      rw [h2, hs, buildFunctions_links, buildTypes_links, buildPackages_links]

/-! ### Characterization of directory parsing -/

/-- The successfully parsed files a `ParseDir` run yields. -/
def parseDirOks (entries : List (String × Except String GoNode)) :
    List (String × GoNode) :=
  entries.filterMap (fun e =>
    match e.2 with
    | .ok f => some (e.1, f)
    | .error _ => none)

/-- The first per-file error a `ParseDir` run yields. -/
def parseDirFirstErr (entries : List (String × Except String GoNode)) :
    Option String :=
  entries.findSome? (fun e =>
    match e.2 with
    | .ok _ => none
    | .error msg => some msg)

theorem parseDirModel_eq (entries : List (String × Except String GoNode)) :
    parseDirModel entries = (parseDirOks entries, parseDirFirstErr entries) := by
  have aux : ∀ (l : List (String × Except String GoNode))
      (acc : List (String × GoNode) × Option String),
      l.foldl
        (fun acc e =>
          match e.2 with
          | .ok f => (acc.1 ++ [(e.1, f)], acc.2)
          | .error msg => (acc.1, acc.2 <|> some msg))
        acc = (acc.1 ++ parseDirOks l, acc.2 <|> parseDirFirstErr l) := by
    intro l
    induction l with
    | nil =>
      intro acc
      obtain ⟨a1, a2⟩ := acc
      simp only [List.foldl_nil, parseDirOks, parseDirFirstErr, List.filterMap_nil,
        List.findSome?_nil, List.append_nil]
      cases a2 <;> rfl
    | cons e es ih =>
      intro acc
      obtain ⟨a1, a2⟩ := acc
      obtain ⟨name, res⟩ := e
      rw [List.foldl_cons]
      cases res with
      | ok f =>
        rw [ih]
        have hoks : parseDirOks ((name, Except.ok f) :: es) =
            (name, f) :: parseDirOks es := by
          simp [parseDirOks, List.filterMap_cons]
        have herr : parseDirFirstErr ((name, Except.ok f) :: es) =
            parseDirFirstErr es := by
          simp [parseDirFirstErr, List.findSome?_cons]
        rw [hoks, herr]
        show (a1 ++ [(name, f)] ++ parseDirOks es, a2 <|> parseDirFirstErr es) =
          (a1 ++ ((name, f) :: parseDirOks es), a2 <|> parseDirFirstErr es)
        rw [List.append_assoc]
        rfl
      | error msg =>
        rw [ih]
        have hoks : parseDirOks ((name, Except.error msg) :: es) =
            parseDirOks es := by
          simp [parseDirOks, List.filterMap_cons]
        have herr : parseDirFirstErr ((name, Except.error msg) :: es) =
            some msg := by
          simp [parseDirFirstErr, List.findSome?_cons]
        rw [hoks, herr]
        show (a1 ++ parseDirOks es, (a2 <|> some msg) <|> parseDirFirstErr es) =
          (a1 ++ parseDirOks es, a2 <|> some msg)
        cases a2 <;> rfl
  unfold parseDirModel
  rw [aux entries ([], none)]
  rfl

theorem parseDirFirstErr_eq_none (entries : List (String × Except String GoNode)) :
    parseDirFirstErr entries = none ↔
      ∀ e ∈ entries, ∀ msg, e.2 ≠ Except.error msg := by
  unfold parseDirFirstErr
  rw [List.findSome?_eq_none_iff]
  constructor
  · intro h e he msg habs
    have := h e he
    rw [habs] at this
    simp at this
  · intro h e he
    cases hc : e.2 with
    | ok f => rfl
    | error msg => exact absurd hc (h e he msg)

/-- Lookup after merging a batch of parsed files: keys not among the batch
are untouched. -/
theorem lookupStr_merge_untouched (parsed : List (String × GoNode))
    (m : List (String × GoNode)) (k : String)
    (h : ∀ e ∈ parsed, e.1 ≠ k) :
    lookupStr (parsed.foldl (fun m e => upsert m e.1 e.2) m) k = lookupStr m k := by
  induction parsed generalizing m with
  | nil => rfl
  | cons e es ih =>
    rw [List.foldl_cons]
    rw [ih (upsert m e.1 e.2) (fun x hx => h x (List.mem_cons_of_mem e hx))]
    exact lookupStr_upsert_other m e.1 k e.2
      (Ne.symm (h e (List.mem_cons_self e es)))

/-! ### Import path representations (for the two public surfaces) -/

theorem stripQuotes_quoted (x : String) :
    stripQuotes ("\"" ++ x ++ "\"") = x := by
  unfold stripQuotes
  have hdata : ("\"" ++ x ++ "\"").data = '"' :: (x.data ++ ['"']) := by
    simp [String.data_append]
  rw [hdata]
  simp [List.dropLast_concat]

theorem quoted_ne_self (x : String) : ("\"" ++ x ++ "\"") ≠ x := by
  intro h
  have h1 : ("\"" : String).length = 1 := rfl
  have hlen : ("\"" ++ x ++ "\"").length = x.length + 2 := by
    rw [String.length_append, String.length_append, h1]
    omega
  rw [h] at hlen
  omega

/-- Evaluating `GetImports` over a single parsed file whose package clause named `pkg`:
the imports appear under `pkg`, each with quotes stripped. -/
theorem GetImports_single (fn pkg : String)
    (imports : List (Option String × String)) (decls : List GoNode) :
    (ParserSt.mk [(fn, .file (some pkg) imports decls)]).GetImports =
      if imports.isEmpty then []
      else [(pkg, imports.map (fun i => stripQuotes i.2))] := by
  have step : ∀ (imps : List (Option String × String)) (vs : List String),
      imps.foldl (fun m i => appendAt m pkg (stripQuotes i.2)) [(pkg, vs)] =
        [(pkg, vs ++ imps.map (fun i => stripQuotes i.2))] := by
    intro imps
    induction imps with
    | nil => intro vs; simp
    | cons i is ih =>
      intro vs
      rw [List.foldl_cons]
      have happ : appendAt [(pkg, vs)] pkg (stripQuotes i.2) =
          [(pkg, vs ++ [stripQuotes i.2])] := by
        unfold appendAt upsert lookupStr
        simp [List.find?]
      rw [happ, ih]
      simp
  unfold ParserSt.GetImports
  simp only [List.foldl_cons, List.foldl_nil]
  cases imports with
  | nil => rfl
  | cons i is =>
    have hfirst : appendAt [] pkg (stripQuotes i.2) = [(pkg, [stripQuotes i.2])] := by
      unfold appendAt upsert lookupStr
      simp
    rw [List.foldl_cons, hfirst, step]
    simp

/-! ### `ModuleParseFile` stores raw import literals -/

theorem AddNode_nodes_mono (s : Store) (c t : String) (m : NodeMeta)
    (n : NodeRec) (h : n ∈ s.nodes) : n ∈ (s.AddNode c t m).2.nodes := by
  simp [Store.AddNode, h]

theorem AddLink_nodes (s : Store) (src tgt ty : String) :
    (s.AddLink src tgt ty).nodes = s.nodes := rfl

theorem processDecl_nodes_mono (pkgID : String) (st : Store) (d : GoNode)
    (n : NodeRec) (h : n ∈ st.nodes) : n ∈ (processDecl pkgID st d).nodes := by
  cases d with
  | funcDecl name recv body =>
    unfold processDecl
    rw [AddLink_nodes]
    exact AddNode_nodes_mono _ _ _ _ _ h
  | genDecl specs =>
    unfold processDecl
    refine foldl_preserve (P := fun s2 : Store => n ∈ s2.nodes) ?_ specs st h
    intro s2 sp h2
    cases sp with
    | typeSpec name ty =>
      cases ty with
      | structType fields =>
        refine foldl_preserve (P := fun s3 : Store => n ∈ s3.nodes) ?_ fields _ ?_
        · intro s3 f h3
          cases f with
          | field names fty =>
            rw [AddLink_nodes]
            exact AddNode_nodes_mono _ _ _ _ _ h3
          | _ => exact h3
        · simp only [AddLink_nodes]
          exact AddNode_nodes_mono _ _ _ _ _ h2
      | interfaceType ms =>
        rw [AddLink_nodes]
        exact AddNode_nodes_mono _ _ _ _ _ h2
      | _ => exact h2
    | _ => exact h2
  | _ => exact h

/-- Every import of a parsed file yields a stored import node whose content
and `path` metadata are the raw quoted literal. -/
theorem ModuleParseFile_import_node (fs : FileSys) (s : Store)
    (filename pkg : String) (imports : List (Option String × String))
    (decls : List GoNode) (al : Option String) (lit : String)
    (hfs : lookupStr fs filename =
      some (.file (.ok (.file (some pkg) imports decls))))
    (himp : (al, lit) ∈ imports) (s2 : Store)
    (hok : ModuleParseFile fs s filename = .ok s2) :
    ∃ node ∈ s2.nodes, node.nodeType = NodeTypeImport ∧
      node.content = lit ∧ node.meta.path = some lit := by
  unfold ModuleParseFile at hok
  rw [hfs] at hok
  simp only [Except.ok.injEq] at hok
  subst hok
  set pkgID := (s.AddNode pkg NodeTypePackage { filename := some filename }).1 with hpkg
  set s1 := (s.AddNode pkg NodeTypePackage { filename := some filename }).2 with hs1
  have key : ∀ (imps : List (Option String × String)) (st : Store),
      (al, lit) ∈ imps →
      ∃ node ∈ (imps.foldl
          (fun st imp =>
            let importPath := imp.2
            let r := st.AddNode importPath NodeTypeImport
              { path := some importPath, aliasName := imp.1 }
            r.2.AddLink pkgID r.1 LinkTypeImports)
          st).nodes,
        node.nodeType = NodeTypeImport ∧ node.content = lit ∧
          node.meta.path = some lit := by
    intro imps
    induction imps with
    | nil => intro st hm; simp at hm
    | cons i is ih =>
      intro st hm
      rw [List.mem_cons] at hm
      rw [List.foldl_cons]
      rcases hm with hm | hm
      · have hi : i.2 = lit := by rw [← hm]
        refine foldl_preserve
          (P := fun s3 : Store => ∃ node ∈ s3.nodes,
            node.nodeType = NodeTypeImport ∧ node.content = lit ∧
              node.meta.path = some lit) ?_ is _ ?_
        · intro s3 imp ⟨node, h3, hn⟩
          exact ⟨node, by
            rw [AddLink_nodes]
            exact AddNode_nodes_mono _ _ _ _ _ h3, hn⟩
        · refine ⟨⟨"n" ++ toString st.nextId, lit, NodeTypeImport,
            { path := some lit, aliasName := i.1 }⟩, ?_, rfl, rfl, rfl⟩
          rw [hi] at *
          simp [Store.AddLink, Store.AddNode, hi]
      · obtain ⟨node, h3, hn⟩ := ih _ hm
        exact ⟨node, h3, hn⟩
  have final := key imports s1 himp
  obtain ⟨node, hmem, hn⟩ := final
  refine ⟨node, ?_, hn⟩
  refine foldl_preserve (P := fun s3 : Store => node ∈ s3.nodes) ?_ decls _ hmem
  intro s3 d h3
  exact processDecl_nodes_mono pkgID s3 d node h3

/-! ### Concrete example programs -/

/-- The program `package p; type Greeter interface { Greet() }; type Dog struct{};
func (d Dog) Greet() {}` — the spec's interface-satisfaction scenario. -/
def fileDog : GoNode :=
  .file (some "p") []
    [.genDecl [.typeSpec "Greeter" (.interfaceType [.field ["Greet"] .otherType])],
     .genDecl [.typeSpec "Dog" (.structType [])],
     .funcDecl "Greet" (some "Dog") []]

/-- A parser that extracted `fileDog`. -/
def pDog : ParserSt := ⟨[("main.go", fileDog)]⟩

/-- The program `package p; func A() { B() }; func B() {}` — the spec's calls scenario. -/
def fileAB : GoNode :=
  .file (some "p") []
    [.funcDecl "A" none [.callExpr (.ident "B") []],
     .funcDecl "B" none []]

/-- A parser that extracted `fileAB`. -/
def pAB : ParserSt := ⟨[("main.go", fileAB)]⟩

/-- The program `package p; type MyInt int` — a type declaration that is neither a struct
nor an interface literal. -/
def fileMyInt : GoNode :=
  .file (some "p") [] [.genDecl [.typeSpec "MyInt" (.ident "int")]]

/-- A parser that extracted `fileMyInt`. -/
def pMyInt : ParserSt := ⟨[("main.go", fileMyInt)]⟩

/-- The program `package p; type T struct{}; type S struct { *T }` — embedding a declared
type through a pointer. -/
def filePtrEmbed : GoNode :=
  .file (some "p") []
    [.genDecl [.typeSpec "T" (.structType [])],
     .genDecl [.typeSpec "S" (.structType [.field [] (.starExpr (.ident "T"))])]]

/-- A parser that extracted `filePtrEmbed`. -/
def pPtrEmbed : ParserSt := ⟨[("main.go", filePtrEmbed)]⟩

/-- Run the full pipeline (`SetParser`, `Analyze`, `SetAnalyzer`, `Build`)
on one parsed file against an empty store and return the final store (the
error branches are unreachable because both components are wired). -/
def pipelineStore (p : ParserSt) : Store :=
  match (NewAnalyzer.SetParser p).Analyze with
  | .error _ => Store.empty
  | .ok a =>
    match (NewGraphBuilder.SetAnalyzer a).Build Store.empty with
    | .error _ => Store.empty
    | .ok r => r.2

/-- The analyzer tables obtained from one parsed file. -/
def pipelineAnalyzer (p : ParserSt) : AnalyzerSt :=
  match (NewAnalyzer.SetParser p).Analyze with
  | .error _ => NewAnalyzer
  | .ok a => a

theorem pipelineAnalyzer_eq (p : ParserSt) :
    pipelineAnalyzer p =
      { NewAnalyzer.SetParser p with types := analyzeTypesRun p [] } := by
  unfold pipelineAnalyzer
  rw [Analyze_ok (NewAnalyzer.SetParser p) p rfl]
  rfl

theorem pipelineAnalyzer_hasParser (p : ParserSt) :
    (pipelineAnalyzer p).parser = some p := by
  rw [pipelineAnalyzer_eq]
  rfl

theorem pipelineStore_eq (p : ParserSt) :
    pipelineStore p =
      (BuildStages (pipelineAnalyzer p) p
        (NewGraphBuilder.SetAnalyzer (pipelineAnalyzer p)) Store.empty).2 := by
  have ha : (NewAnalyzer.SetParser p).Analyze = .ok (pipelineAnalyzer p) := by
    rw [Analyze_ok (NewAnalyzer.SetParser p) p rfl, pipelineAnalyzer_eq]
    rfl
  have hb : (NewGraphBuilder.SetAnalyzer (pipelineAnalyzer p)).Build Store.empty =
      .ok (BuildStages (pipelineAnalyzer p) p
        (NewGraphBuilder.SetAnalyzer (pipelineAnalyzer p)) Store.empty) :=
    Build_eq _ (pipelineAnalyzer p) p Store.empty rfl (pipelineAnalyzer_hasParser p)
  unfold pipelineStore
  rw [ha]
  dsimp only
  rw [hb]

/-! ### Generic lemmas about the staged build composition -/

theorem BuildStages_snd (a : AnalyzerSt) (p : ParserSt) (g : BuilderSt)
    (s : Store) :
    (BuildStages a p g s).2 =
      buildRelationships a (BuildStages a p g s).1
        (buildFunctions p
          (buildTypes a.types (buildPackages p g s).1 (buildPackages p g s).2).1
          (buildTypes a.types (buildPackages p g s).1 (buildPackages p g s).2).2).2 :=
  rfl

theorem BuildStages_prelinks (a : AnalyzerSt) (p : ParserSt) (g : BuilderSt)
    (s : Store) :
    (buildFunctions p
      (buildTypes a.types (buildPackages p g s).1 (buildPackages p g s).2).1
      (buildTypes a.types (buildPackages p g s).1 (buildPackages p g s).2).2).2.links =
      s.links := by
  rw [buildFunctions_links, buildTypes_links, buildPackages_links]

/-- The staged build never adds an implements link. -/
theorem BuildStages_no_implements (a : AnalyzerSt) (p : ParserSt)
    (g : BuilderSt) (s : Store) :
    (BuildStages a p g s).2.links.filter
        (fun l => l.linkType = LinkTypeImplements) =
      s.links.filter (fun l => l.linkType = LinkTypeImplements) := by
  rw [BuildStages_snd]
  obtain ⟨suffix, hs, hall⟩ := buildRelationships_decomp a (BuildStages a p g s).1
    (buildFunctions p
      (buildTypes a.types (buildPackages p g s).1 (buildPackages p g s).2).1
      (buildTypes a.types (buildPackages p g s).1 (buildPackages p g s).2).2).2
  rw [hs, BuildStages_prelinks, List.filter_append]
  have hnil : suffix.filter (fun l => l.linkType = LinkTypeImplements) = [] := by
    rw [List.filter_eq_nil_iff]
    intro l hl
    rcases (hall l hl).1 with h | h | h <;>
      simp [h, LinkTypeCalls, LinkTypeEmbeds, LinkTypeUses, LinkTypeImplements]
  rw [hnil, List.append_nil]

/-- With empty calls, types and uses tables the staged build adds no links. -/
theorem BuildStages_links_empty_tables (a : AnalyzerSt) (p : ParserSt)
    (g : BuilderSt) (s : Store) (hcalls : a.calls = [])
    (htypes : a.types = []) (huses : a.uses = []) :
    (BuildStages a p g s).2.links = s.links := by
  rw [BuildStages_snd]
  unfold buildRelationships
  rw [hcalls, htypes, huses]
  simp only [List.foldl_nil]
  rw [buildFunctions_links, buildTypes_links, buildPackages_links]

/-- A name with no entry in the analyzer types table and no stale entry in
the builder index does not resolve after `buildTypes`. -/
theorem buildTypes_key_none (types : List (String × TypeInfo)) (g : BuilderSt)
    (s : Store) (k : String) (hk : ∀ i, (k, i) ∉ types)
    (hg : lookupStr g.types k = none) :
    lookupStr (buildTypes types g s).1.types k = none := by
  have aux : ∀ (l : List (String × TypeInfo)) (acc : BuilderSt × Store),
      (∀ i, (k, i) ∉ l) → lookupStr acc.1.types k = none →
      lookupStr (l.foldl buildTypesStep acc).1.types k = none := by
    intro l
    induction l with
    | nil => intro acc _ hacc; exact hacc
    | cons e es ih =>
      intro acc hl hacc
      rw [List.foldl_cons]
      refine ih _ (fun i hi => hl i (List.mem_cons_of_mem e hi)) ?_
      rw [buildTypesStep_types, lookupStr_upsert_other]
      · exact hacc
      · intro hke
        apply hl e.2
        have he : e = (k, e.2) := by rw [hke]
        rw [← he]
        exact List.mem_cons_self e es
  exact aux types (g, s) hk hg

/-- A name that resolves in neither table produces no embeds link: with
empty calls/uses tables and every embedded name unresolved, the staged
build adds no links at all. -/
theorem BuildStages_links_unresolved_embeds (a : AnalyzerSt) (p : ParserSt)
    (g : BuilderSt) (s : Store) (hcalls : a.calls = []) (huses : a.uses = [])
    (hemb : ∀ tn info, (tn, info) ∈ a.types → ∀ em ∈ info.Embedded,
      (∀ i, (em, i) ∉ a.types) ∧ lookupStr g.types em = none) :
    (BuildStages a p g s).2.links = s.links := by
  rw [BuildStages_snd]
  unfold buildRelationships
  rw [hcalls, huses]
  simp only [List.foldl_nil]
  set g3 := (BuildStages a p g s).1 with hg3
  have hg3types : g3.types =
      (buildTypes a.types (buildPackages p g s).1 (buildPackages p g s).2).1.types := by
    rw [hg3]
    show (buildFunctions p _ _).1.types = _
    rw [buildFunctions_types]
  have hnone : ∀ tn info, (tn, info) ∈ a.types → ∀ em ∈ info.Embedded,
      lookupStr g3.types em = none := by
    intro tn info hmem em hem
    obtain ⟨hnot, hgnone⟩ := hemb tn info hmem em hem
    rw [hg3types]
    refine buildTypes_key_none a.types _ _ em hnot ?_
    rw [buildPackages_types]
    exact hgnone
  have step : ∀ (l : List (String × TypeInfo)) (st : Store),
      (∀ e ∈ l, e ∈ a.types) →
      (l.foldl (relEmbedsStep g3) st).links = st.links := by
    intro l
    induction l with
    | nil => intro st _; rfl
    | cons e es ih =>
      intro st hsub
      rw [List.foldl_cons]
      have hstep : (relEmbedsStep g3 st e).links = st.links := by
        unfold relEmbedsStep
        cases hc : lookupStr g3.types e.1 with
        | none => rfl
        | some typeID =>
          have hinner : ∀ (ems : List String) (st2 : Store),
              (∀ em ∈ ems, em ∈ e.2.Embedded) →
              (ems.foldl (relEmbedsInner g3 typeID) st2).links = st2.links := by
            intro ems
            induction ems with
            | nil => intro st2 _; rfl
            | cons em rest ihm =>
              intro st2 hems
              rw [List.foldl_cons]
              have hskip : relEmbedsInner g3 typeID st2 em = st2 := by
                unfold relEmbedsInner
                rw [hnone e.1 e.2 (hsub e (List.mem_cons_self e es))
                  em (hems em (List.mem_cons_self em rest))]
              rw [hskip]
              exact ihm _ (fun x hx => hems x (List.mem_cons_of_mem em hx))
          exact hinner e.2.Embedded st (fun x hx => hx)
      rw [ih (relEmbedsStep g3 st e) (fun x hx => hsub x (List.mem_cons_of_mem e hx))]
      exact hstep
  rw [step a.types _ (fun e he => he)]
  exact BuildStages_prelinks a p g s

/-- The staged build creates the embeds edge between two types present in
the analyzer table when the embedded name matches a declared type. -/
theorem BuildStages_embeds_mem (a : AnalyzerSt) (p : ParserSt) (g : BuilderSt)
    (s : Store) (S T : String) (infoS infoT : TypeInfo)
    (hS : (S, infoS) ∈ a.types) (hT : (T, infoT) ∈ a.types)
    (hTmem : T ∈ infoS.Embedded) :
    ∃ sid tid, lookupStr (BuildStages a p g s).1.types S = some sid ∧
      lookupStr (BuildStages a p g s).1.types T = some tid ∧
      (⟨sid, tid, LinkTypeEmbeds⟩ : LinkRec) ∈ (BuildStages a p g s).2.links := by
  have htypesidx : (BuildStages a p g s).1.types =
      (buildTypes a.types (buildPackages p g s).1 (buildPackages p g s).2).1.types := by
    show (buildFunctions p _ _).1.types = _
    rw [buildFunctions_types]
  obtain ⟨sid, hsid⟩ :=
    buildTypes_key a.types (buildPackages p g s).1 (buildPackages p g s).2 S infoS hS
  obtain ⟨tid, htid⟩ :=
    buildTypes_key a.types (buildPackages p g s).1 (buildPackages p g s).2 T infoT hT
  refine ⟨sid, tid, by rw [htypesidx]; exact hsid, by rw [htypesidx]; exact htid, ?_⟩
  rw [BuildStages_snd]
  unfold buildRelationships
  have hmem := relEmbeds_mem (BuildStages a p g s).1 a.types
    (a.calls.foldl (relCallsStep (BuildStages a p g s).1)
      (buildFunctions p
        (buildTypes a.types (buildPackages p g s).1 (buildPackages p g s).2).1
        (buildTypes a.types (buildPackages p g s).1 (buildPackages p g s).2).2).2)
    S T infoS sid tid hS
    (by rw [htypesidx] at *; exact hsid)
    (by rw [htypesidx] at *; exact htid) hTmem
  refine foldl_preserve
    (P := fun s2 : Store => (⟨sid, tid, LinkTypeEmbeds⟩ : LinkRec) ∈ s2.links)
    (fun s2 e h2 => relUsesStep_mono _ s2 e _ h2) a.uses _ hmem

/-! ### Claim theorems -/

/-- Specification-side definition (following the claim's words, for
comparison with what the code builds): the method-name set of a type `S` —
the names of declared functions whose receiver is `S` or `*S`. -/
def specReceiverMethods (p : ParserSt) (typeName : String) : List String :=
  p.GetFunctions.filterMap (fun e =>
    match e.2 with
    | some r => if r = typeName || r = "*" ++ typeName then some e.1 else none
    | none => none)

/-- C1 counterexample: in the Dog/Greeter program, `Greeter`'s method set
`[Greet]` is nonempty and contained in `Dog`'s receiver-method set `[Greet]`,
yet after the full pipeline the store holds no `implements` link at all —
the Build pass never creates them. -/
theorem C1_counterexample :
    lookupStr (pipelineAnalyzer pDog).types "Greeter" =
      some { Name := "Greeter", IsInterface := true, Methods := ["Greet"] } ∧
    lookupStr (pipelineAnalyzer pDog).types "Dog" =
      some { Name := "Dog", IsStruct := true } ∧
    specReceiverMethods pDog "Dog" = ["Greet"] ∧
    (["Greet"] : List String) ≠ [] ∧
    (∀ m ∈ (["Greet"] : List String), m ∈ specReceiverMethods pDog "Dog") ∧
    (pipelineStore pDog).links.filter
      (fun l => l.linkType = LinkTypeImplements) = [] := by
  refine ⟨?_, ?_, ?_, by simp, ?_, ?_⟩
  · rw [pipelineAnalyzer_eq]
    simp [analyzeTypesRun, pDog, fileDog, ParserSt.GetTypes, GoNode.allNodes,
      GoNode.visitSeq, GoNode.visitChildren, GoNode.visitSeqList,
      classifyTypeSpec, upsert, lookupStr, List.find?]
  · rw [pipelineAnalyzer_eq]
    simp [analyzeTypesRun, pDog, fileDog, ParserSt.GetTypes, GoNode.allNodes,
      GoNode.visitSeq, GoNode.visitChildren, GoNode.visitSeqList,
      classifyTypeSpec, upsert, lookupStr, List.find?]
  · simp [specReceiverMethods, pDog, fileDog, ParserSt.GetFunctions,
      GoNode.allNodes, GoNode.visitSeq, GoNode.visitChildren, GoNode.visitSeqList]
  · intro m hm
    simp at hm
    subst hm
    simp [specReceiverMethods, pDog, fileDog, ParserSt.GetFunctions,
      GoNode.allNodes, GoNode.visitSeq, GoNode.visitChildren, GoNode.visitSeqList]
  · refine Eq.trans (congrArg
      (fun st : Store => st.links.filter (fun l => l.linkType = LinkTypeImplements))
      (pipelineStore_eq pDog)) ?_
    exact BuildStages_no_implements (pipelineAnalyzer pDog) pDog
      (NewGraphBuilder.SetAnalyzer (pipelineAnalyzer pDog)) Store.empty

/-- C1 amended: the graph Build pass creates no `implements` edges at all —
after any `Build` call the store's implements links are exactly those
present beforehand (the pass only adds calls, embeds and uses links). -/
theorem C1_build_never_adds_implements (g : BuilderSt) (s : Store) :
    (BuildStore g s).links.filter (fun l => l.linkType = LinkTypeImplements) =
      s.links.filter (fun l => l.linkType = LinkTypeImplements) := by
  obtain ⟨suffix, hs, hall⟩ := BuildStore_links_decomp g s
  rw [hs, List.filter_append]
  have hnil : suffix.filter (fun l => l.linkType = LinkTypeImplements) = [] := by
    rw [List.filter_eq_nil_iff]
    intro l hl
    rcases hall l hl with h | h | h <;>
      simp [h, LinkTypeCalls, LinkTypeEmbeds, LinkTypeUses, LinkTypeImplements]
  rw [hnil, List.append_nil]

/-- C2: in the program `func A() { B() }; func B() {}` both functions are
declared, yet the analyzer records no call at all (`getCurrentFunction`
never finds the enclosing function because `findParent` inspects the call
node's own subtree) and the final store holds no `calls` link. -/
theorem C2_declared_call_produces_no_edge :
    pAB.GetFunctions = [("A", none), ("B", none)] ∧
    callSites fileAB = [] ∧
    (pipelineAnalyzer pAB).calls = [] ∧
    (pipelineStore pAB).links = [] := by
  refine ⟨?_, callSites_eq_nil fileAB, ?_, ?_⟩
  · simp [pAB, fileAB, ParserSt.GetFunctions, GoNode.allNodes,
      GoNode.visitSeq, GoNode.visitChildren, GoNode.visitSeqList]
  · rw [pipelineAnalyzer_eq]
    rfl
  · have htypes : (pipelineAnalyzer pAB).types = [] := by
      rw [pipelineAnalyzer_eq]
      simp [analyzeTypesRun, pAB, fileAB, ParserSt.GetTypes, GoNode.allNodes,
        GoNode.visitSeq, GoNode.visitChildren, GoNode.visitSeqList]
    have hcalls : (pipelineAnalyzer pAB).calls = [] := by
      rw [pipelineAnalyzer_eq]
      rfl
    have huses : (pipelineAnalyzer pAB).uses = [] := by
      rw [pipelineAnalyzer_eq]
      rfl
    refine Eq.trans (congrArg (fun st : Store => st.links)
      (pipelineStore_eq pAB)) ?_
    exact BuildStages_links_empty_tables (pipelineAnalyzer pAB) pAB
      (NewGraphBuilder.SetAnalyzer (pipelineAnalyzer pAB)) Store.empty
      hcalls htypes huses

/-- C3 counterexample: on an empty store, every query helper returns the
wrapped not-found error to the command layer instead of an empty result. -/
theorem C3_counterexample :
    ShowTypes Store.empty "Missing" =
      .error "querying nodes: node not found" ∧
    ShowCalls Store.empty "Missing" =
      .error "getting function: node not found" ∧
    ShowImplementations Store.empty "Missing" =
      .error "getting interface: node not found" ∧
    ShowDependencies Store.empty "Missing" =
      .error "getting package: node not found" := by
  exact ⟨rfl, rfl, rfl, rfl⟩

/-- C3 amended: when the queried name is absent from the store (the store's
`GetNode` fails), each of the four read helpers propagates the wrapped error
to the command layer; an empty result is returned only when the node exists
with a non-matching kind. -/
theorem C3_not_found_propagates (s : Store) (name e : String)
    (h : s.GetNode name = .error e) :
    ShowTypes s name = .error ("querying nodes: " ++ e) ∧
    ShowCalls s name = .error ("getting function: " ++ e) ∧
    ShowImplementations s name = .error ("getting interface: " ++ e) ∧
    ShowDependencies s name = .error ("getting package: " ++ e) := by
  unfold ShowTypes ShowCalls ShowImplementations ShowDependencies
  rw [h]
  exact ⟨rfl, rfl, rfl, rfl⟩

theorem C3_witness :
    ShowTypes Store.empty "Nope" =
      .error ("querying nodes: " ++ "node not found") ∧
    ShowCalls Store.empty "Nope" =
      .error ("getting function: " ++ "node not found") ∧
    ShowImplementations Store.empty "Nope" =
      .error ("getting interface: " ++ "node not found") ∧
    ShowDependencies Store.empty "Nope" =
      .error ("getting package: " ++ "node not found") :=
  C3_not_found_propagates Store.empty "Nope" "node not found" rfl

/-- An empty, valid Go file (`package p`). -/
def goodFile : GoNode := .file (some "p") [] []

/-- A directory with one valid and one syntactically invalid file. -/
def fsMixed : FileSys :=
  [("src", .dir [("good.go", .ok goodFile),
                 ("bad.go", .error "expected declaration")])]

/-- C4 counterexample: the underlying directory parse does yield the valid
sibling `good.go` (best-effort at the `ParseDir` level), but `ParsePath`
returns the error and stores nothing — the parsed sibling is discarded
rather than kept. -/
theorem C4_counterexample :
    parseDirModel [("good.go", Except.ok goodFile),
        ("bad.go", Except.error "expected declaration")] =
      ([("good.go", goodFile)], some "expected declaration") ∧
    NewParser.ParsePath fsMixed "src" =
      .error "parsing directory: expected declaration" := by
  exact ⟨rfl, rfl⟩

/-- C4 amended: for a directory, the underlying `ParseDir` continues past
per-file syntax errors; `ParsePath` then fails whenever any file failed,
storing none of the directory's files, and merges every file only when all
of them parse. -/
theorem C4_directory_error_discards (fs : FileSys) (p : ParserSt)
    (path : String) (entries : List (String × Except String GoNode))
    (hfs : lookupStr fs path = some (.dir entries)) :
    ((∃ n msg, (n, Except.error msg) ∈ entries) →
      ∃ e, p.ParsePath fs path = .error e) ∧
    ((∀ x ∈ entries, ∀ msg, x.2 ≠ Except.error msg) →
      p.ParsePath fs path =
        .ok ⟨(parseDirOks entries).foldl (fun m e => upsert m e.1 e.2) p.files⟩) := by
  unfold ParserSt.ParsePath
  rw [hfs]
  dsimp only
  rw [parseDirModel_eq]
  constructor
  · rintro ⟨n, msg, hmem⟩
    have hne : parseDirFirstErr entries ≠ none := by
      intro hnone
      rw [parseDirFirstErr_eq_none] at hnone
      exact hnone (n, Except.error msg) hmem msg rfl
    cases hfe : parseDirFirstErr entries with
    | none => exact absurd hfe hne
    | some m =>
      exact ⟨"parsing directory: " ++ m, rfl⟩
  · intro hall
    rw [(parseDirFirstErr_eq_none entries).mpr hall]

/-- A parser already holding one previously parsed file. -/
def pOld : ParserSt := ⟨[("old.go", goodFile)]⟩

/-- A file system offering a second, distinct single file. -/
def fsNew : FileSys := [("new.go", .file (.ok fileAB))]

/-- A directory whose every file parses. -/
def fsAllGood : FileSys := [("dir", .dir [("new.go", .ok fileAB)])]

theorem C4_witness :
    (∃ e, NewParser.ParsePath fsMixed "src" = .error e) ∧
    pOld.ParsePath fsAllGood "dir" =
      .ok ⟨(parseDirOks [("new.go", .ok fileAB)]).foldl
        (fun m e => upsert m e.1 e.2) pOld.files⟩ := by
  constructor
  · exact (C4_directory_error_discards fsMixed NewParser "src"
      [("good.go", .ok goodFile), ("bad.go", .error "expected declaration")]
      rfl).1 ⟨"bad.go", "expected declaration", by simp⟩
  · refine (C4_directory_error_discards fsAllGood pOld "dir"
      [("new.go", .ok fileAB)] rfl).2 ?_
    intro x hx msg habs
    simp only [List.mem_singleton] at hx
    rw [hx] at habs
    exact absurd habs (by simp)

/-- C5 classification target shape: the underlying type is a struct or
interface literal. -/
def isStructOrInterfaceLit : GoNode → Bool
  | .structType _ => true
  | .interfaceType _ => true
  | _ => false

/-- C5 counterexample: `type MyInt int` is classified with `IsStruct` and
`IsInterface` both false — "exactly one of them is true" fails. -/
theorem C5_counterexample :
    lookupStr (analyzeTypesRun pMyInt []) "MyInt" = some { Name := "MyInt" } ∧
    ({ Name := "MyInt" } : TypeInfo).IsStruct = false ∧
    ({ Name := "MyInt" } : TypeInfo).IsInterface = false := by
  refine ⟨?_, rfl, rfl⟩
  simp [analyzeTypesRun, pMyInt, fileMyInt, ParserSt.GetTypes, GoNode.allNodes,
    GoNode.visitSeq, GoNode.visitChildren, GoNode.visitSeqList, classifyTypeSpec,
    upsert, lookupStr, List.find?]

/-- C5 amended: the two flags are never both true, and exactly one of them
is true precisely when the declared underlying type is a struct or
interface literal; for any other underlying type (aliases such as
`type MyInt int`) both flags are false. -/
theorem C5_classification_flags (name : String) (ty : GoNode) :
    ((classifyTypeSpec name ty).IsStruct &&
      (classifyTypeSpec name ty).IsInterface) = false ∧
    ((classifyTypeSpec name ty).IsStruct ||
      (classifyTypeSpec name ty).IsInterface) = isStructOrInterfaceLit ty := by
  cases ty <;> simp [classifyTypeSpec, isStructOrInterfaceLit]

/-- An analyzer that was wired (`SetParser`) but on which `Analyze` was
never invoked. -/
def aNoAnalyze : AnalyzerSt := NewAnalyzer.SetParser NewParser

/-- A builder wired to that never-analyzed analyzer. -/
def gNoAnalyze : BuilderSt := NewGraphBuilder.SetAnalyzer aNoAnalyze

/-- C6 counterexample: `Build` succeeds on a builder whose attached analyzer
never ran `Analyze` — the code checks only that an analyzer is attached, not
that analysis completed. -/
theorem C6_counterexample :
    gNoAnalyze.Build Store.empty = .ok (gNoAnalyze, Store.empty) := by
  rw [Build_eq gNoAnalyze aNoAnalyze NewParser Store.empty rfl rfl]
  rfl

/-- C6 amended: `Analyze` fails with the not-ready error exactly when no
parser is attached, and `Build` fails with the not-ready error exactly when
no analyzer is attached; with an attached analyzer that has a parser,
`Build` succeeds whether or not `Analyze` was ever run. -/
theorem C6_not_ready_checks :
    (∀ a : AnalyzerSt, a.parser = none → a.Analyze = .error "parser not set") ∧
    (∀ (g : BuilderSt) (s : Store), g.analyzer = none →
      g.Build s = .error "analyzer not set") ∧
    (∀ (g : BuilderSt) (a : AnalyzerSt) (p : ParserSt) (s : Store),
      g.analyzer = some a → a.parser = some p → ∃ r, g.Build s = .ok r) := by
  refine ⟨?_, ?_, ?_⟩
  · intro a ha
    unfold AnalyzerSt.Analyze
    rw [ha]
  · intro g s hg
    unfold BuilderSt.Build
    rw [hg]
  · intro g a p s hg hp
    exact ⟨_, Build_eq g a p s hg hp⟩

theorem C6_witness :
    NewAnalyzer.Analyze = .error "parser not set" ∧
    NewGraphBuilder.Build Store.empty = .error "analyzer not set" ∧
    ∃ r, gNoAnalyze.Build Store.empty = .ok r :=
  ⟨C6_not_ready_checks.1 NewAnalyzer rfl,
   C6_not_ready_checks.2.1 NewGraphBuilder Store.empty rfl,
   C6_not_ready_checks.2.2 gNoAnalyze aNoAnalyze NewParser Store.empty rfl rfl⟩

/-- C7 counterexample: `type T struct{}; type S struct { *T }` — the
embedded field references the declared type `T` (through a pointer), the
analyzer records the embedded name as the string `*T`, which resolves to no
declared type, and the full pipeline produces no links at all: no
`embeds` edge S→T. -/
theorem C7_counterexample :
    lookupStr (pipelineAnalyzer pPtrEmbed).types "S" =
      some { Name := "S", IsStruct := true, Embedded := ["*T"] } ∧
    lookupStr (pipelineAnalyzer pPtrEmbed).types "T" =
      some { Name := "T", IsStruct := true } ∧
    (pipelineStore pPtrEmbed).links = [] := by
  have htypes : (pipelineAnalyzer pPtrEmbed).types =
      [("T", { Name := "T", IsStruct := true }),
       ("S", { Name := "S", IsStruct := true, Embedded := ["*T"] })] := by
    rw [pipelineAnalyzer_eq]
    simp [analyzeTypesRun, pPtrEmbed, filePtrEmbed, ParserSt.GetTypes,
      GoNode.allNodes, GoNode.visitSeq, GoNode.visitChildren, GoNode.visitSeqList,
      classifyTypeSpec, upsert, lookupStr, List.find?, getTypeString]
  refine ⟨?_, ?_, ?_⟩
  · rw [htypes]
    simp [lookupStr, List.find?]
  · rw [htypes]
    simp [lookupStr, List.find?]
  · have hcalls : (pipelineAnalyzer pPtrEmbed).calls = [] := by
      rw [pipelineAnalyzer_eq]
      rfl
    have huses : (pipelineAnalyzer pPtrEmbed).uses = [] := by
      rw [pipelineAnalyzer_eq]
      rfl
    refine Eq.trans (congrArg (fun st : Store => st.links)
      (pipelineStore_eq pPtrEmbed)) ?_
    refine BuildStages_links_unresolved_embeds (pipelineAnalyzer pPtrEmbed)
      pPtrEmbed (NewGraphBuilder.SetAnalyzer (pipelineAnalyzer pPtrEmbed))
      Store.empty hcalls huses ?_
    intro tn info hmem em hem
    rw [htypes] at hmem
    simp only [List.mem_cons, List.not_mem_nil, or_false, List.mem_singleton] at hmem
    rcases hmem with h | h
    · have hinfo : info = { Name := "T", IsStruct := true } := congrArg Prod.snd h
      rw [hinfo] at hem
      simp at hem
    · have hinfo : info = { Name := "S", IsStruct := true, Embedded := ["*T"] } :=
        congrArg Prod.snd h
      rw [hinfo] at hem
      simp only [List.mem_singleton] at hem
      subst hem
      constructor
      · intro i hi
        rw [htypes] at hi
        simp at hi
      · rfl

/-- C7 amended: classification records each unnamed field's type string;
the Build pass then creates an `embeds` edge S→T exactly when that recorded
string matches a declared type name (so a plain identifier embedding of a
declared type yields the edge, while a pointer form such as `*T` or an
undeclared name resolves to no type and silently yields no edge); `Build`
never fails over unresolved embedded names, and every embeds link it adds
targets an identifier from the builder's type index. -/
theorem C7_embeds_edges :
    (∀ (S : String) (fields : List GoNode) (fty : GoNode),
      (GoNode.field [] fty) ∈ fields →
      getTypeString fty ∈ (classifyTypeSpec S (.structType fields)).Embedded) ∧
    (∀ (a : AnalyzerSt) (p : ParserSt) (g : BuilderSt) (s : Store)
      (S T : String) (infoS infoT : TypeInfo),
      g.analyzer = some a → a.parser = some p →
      (S, infoS) ∈ a.types → (T, infoT) ∈ a.types → T ∈ infoS.Embedded →
      ∃ r sid tid, g.Build s = .ok r ∧
        lookupStr r.1.types S = some sid ∧ lookupStr r.1.types T = some tid ∧
        (⟨sid, tid, LinkTypeEmbeds⟩ : LinkRec) ∈ r.2.links) ∧
    (∀ (g : BuilderSt) (s : Store) (r : BuilderSt × Store),
      g.Build s = .ok r → ∀ l ∈ r.2.links, l ∉ s.links →
      l.linkType = LinkTypeEmbeds →
      ∃ tn tid, lookupStr r.1.types tn = some tid ∧ l.target = tid) := by
  refine ⟨?_, ?_, ?_⟩
  · intro S fields fty hmem
    unfold classifyTypeSpec
    show getTypeString fty ∈ fields.filterMap _
    exact List.mem_filterMap.mpr ⟨.field [] fty, hmem, rfl⟩
  · intro a p g s S T infoS infoT hg hp hS hT hTmem
    obtain ⟨sid, tid, hsid, htid, hlink⟩ :=
      BuildStages_embeds_mem a p g s S T infoS infoT hS hT hTmem
    exact ⟨BuildStages a p g s, sid, tid, Build_eq g a p s hg hp, hsid, htid, hlink⟩
  · intro g s r hok l hl hnotin hty
    cases hg : g.analyzer with
    | none =>
      have hb : g.Build s = .error "analyzer not set" := by
        unfold BuilderSt.Build
        rw [hg]
      rw [hb] at hok
      exact absurd hok (by simp)
    | some a =>
      cases hp : a.parser with
      | none =>
        have hb : g.Build s = .error "runtime panic: nil parser dereference" := by
          unfold BuilderSt.Build
          rw [hg]
          dsimp only
          rw [hp]
        rw [hb] at hok
        exact absurd hok (by simp)
      | some p =>
        rw [Build_eq g a p s hg hp] at hok
        simp only [Except.ok.injEq] at hok
        subst hok
        rw [BuildStages_snd] at hl
        obtain ⟨suffix, hs, hall⟩ :=
          buildRelationships_decomp a (BuildStages a p g s).1
            (buildFunctions p
              (buildTypes a.types (buildPackages p g s).1 (buildPackages p g s).2).1
              (buildTypes a.types (buildPackages p g s).1 (buildPackages p g s).2).2).2
        rw [hs, BuildStages_prelinks, List.mem_append] at hl
        rcases hl with hl | hl
        · exact absurd hl hnotin
        · exact (hall l hl).2 hty

/-- The program `type T struct{}; type S struct { T }` — a plain identifier embedding. -/
def fileEmbedOk : GoNode :=
  .file (some "p") []
    [.genDecl [.typeSpec "T" (.structType [])],
     .genDecl [.typeSpec "S" (.structType [.field [] (.ident "T")])]]

/-- A parser that extracted `fileEmbedOk`. -/
def pEmbedOk : ParserSt := ⟨[("main.go", fileEmbedOk)]⟩

theorem C7_witness :
    ("T" ∈ (classifyTypeSpec "S"
      (.structType [.field [] (.ident "T")])).Embedded) ∧
    (∃ r sid tid,
      (NewGraphBuilder.SetAnalyzer (pipelineAnalyzer pEmbedOk)).Build
        Store.empty = .ok r ∧
      lookupStr r.1.types "S" = some sid ∧ lookupStr r.1.types "T" = some tid ∧
      (⟨sid, tid, LinkTypeEmbeds⟩ : LinkRec) ∈ r.2.links) := by
  have htypes : (pipelineAnalyzer pEmbedOk).types =
      [("T", { Name := "T", IsStruct := true }),
       ("S", { Name := "S", IsStruct := true, Embedded := ["T"] })] := by
    rw [pipelineAnalyzer_eq]
    simp [analyzeTypesRun, pEmbedOk, fileEmbedOk, ParserSt.GetTypes,
      GoNode.allNodes, GoNode.visitSeq, GoNode.visitChildren, GoNode.visitSeqList,
      classifyTypeSpec, upsert, lookupStr, List.find?, getTypeString]
  constructor
  · have h := C7_embeds_edges.1 "S" [.field [] (.ident "T")] (.ident "T")
      (by simp)
    simpa [getTypeString] using h
  · exact C7_embeds_edges.2.1 (pipelineAnalyzer pEmbedOk) pEmbedOk
      (NewGraphBuilder.SetAnalyzer (pipelineAnalyzer pEmbedOk)) Store.empty
      "S" "T" { Name := "S", IsStruct := true, Embedded := ["T"] }
      { Name := "T", IsStruct := true } rfl (pipelineAnalyzer_hasParser pEmbedOk)
      (by rw [htypes]; simp) (by rw [htypes]; simp) (by simp)

/-- C8: the façade's `Parse` runs extraction, analysis and build in that
order; if extraction fails, `Parse` returns its wrapped error and neither
analysis nor building runs (the façade state, including the store and the
analyzer tables, is returned untouched); if extraction succeeds, analysis
runs on its output and then the build runs on the analysis output, and the
final state carries their results. -/
theorem C8_facade_stages (fs : FileSys) (m : FacadeSt) (path : String) :
    (∀ e, m.parser.ParsePath fs path = .error e →
      m.Parse fs path = (.error (.parsing e), m)) ∧
    (∀ p2, m.parser.ParsePath fs path = .ok p2 →
      ∃ a2 r,
        ({ m.analyzer with parser := some p2 } : AnalyzerSt).Analyze = .ok a2 ∧
        ({ m.builder with analyzer := some a2 } : BuilderSt).Build m.store =
          .ok r ∧
        m.Parse fs path =
          (.ok { parser := p2, analyzer := a2, builder := r.1, store := r.2 },
            { parser := p2, analyzer := a2, builder := r.1, store := r.2 })) := by
  constructor
  · intro e he
    unfold FacadeSt.Parse
    rw [he]
  · intro p2 hp2
    have ha : ({ m.analyzer with parser := some p2 } : AnalyzerSt).Analyze =
        .ok { m.analyzer with
              parser := some p2,
              types := analyzeTypesRun p2 m.analyzer.types } :=
      Analyze_ok _ p2 rfl
    have hb := Build_eq
      { m.builder with analyzer := some ({ m.analyzer with
          parser := some p2,
          types := analyzeTypesRun p2 m.analyzer.types } : AnalyzerSt) }
      ({ m.analyzer with
         parser := some p2,
         types := analyzeTypesRun p2 m.analyzer.types } : AnalyzerSt)
      p2 m.store rfl rfl
    refine ⟨_, _, ha, hb, ?_⟩
    unfold FacadeSt.Parse
    rw [hp2]
    dsimp only
    rw [ha]
    dsimp only
    rw [hb]

/-- A freshly initialized façade over an empty store. -/
def mInit : FacadeSt := FacadeInit Store.empty

theorem C8_witness :
    mInit.Parse [] "missing" =
      (.error (.parsing ("checking path: " ++ "missing")), mInit) ∧
    ∃ a2 r,
      ({ mInit.analyzer with
         parser := some (⟨upsert mInit.parser.files "new.go" fileAB⟩ : ParserSt) } :
        AnalyzerSt).Analyze = .ok a2 ∧
      ({ mInit.builder with analyzer := some a2 } : BuilderSt).Build mInit.store =
        .ok r ∧
      mInit.Parse fsNew "new.go" =
        (.ok ⟨⟨upsert mInit.parser.files "new.go" fileAB⟩, a2, r.1, r.2⟩,
          ⟨⟨upsert mInit.parser.files "new.go" fileAB⟩, a2, r.1, r.2⟩) := by
  constructor
  · exact (C8_facade_stages [] mInit "missing").1
      ("checking path: " ++ "missing") rfl
  · exact (C8_facade_stages fsNew mInit "new.go").2
      ⟨upsert mInit.parser.files "new.go" fileAB⟩ rfl

/-- The file paths a `ParsePath` call (re)parses and stores. -/
def parsedKeys (fs : FileSys) (path : String) : List String :=
  match lookupStr fs path with
  | some (.dir entries) => (parseDirOks entries).map Prod.fst
  | some (.file _) => [path]
  | none => []

/-- C9: a successful `ParsePath` call merges the newly parsed files into the
existing collection: any entry present beforehand whose path the call did
not re-parse is still present, unchanged, afterwards. -/
theorem C9_parsePath_merges (fs : FileSys) (p : ParserSt) (path : String)
    (p2 : ParserSt) (k : String) (v : GoNode)
    (hok : p.ParsePath fs path = .ok p2)
    (hv : lookupStr p.files k = some v)
    (hk : k ∉ parsedKeys fs path) :
    lookupStr p2.files k = some v := by
  unfold ParserSt.ParsePath at hok
  unfold parsedKeys at hk
  cases hfs : lookupStr fs path with
  | none =>
    rw [hfs] at hok
    exact absurd hok (by simp)
  | some entry =>
    rw [hfs] at hok hk
    cases entry with
    | dir entries =>
      dsimp only at hok hk
      rw [parseDirModel_eq] at hok
      cases hfe : parseDirFirstErr entries with
      | some msg =>
        rw [hfe] at hok
        exact absurd hok (by simp)
      | none =>
        rw [hfe] at hok
        simp only [Except.ok.injEq] at hok
        rw [← hok]
        show lookupStr ((parseDirOks entries).foldl
          (fun m e => upsert m e.1 e.2) p.files) k = some v
        rw [lookupStr_merge_untouched]
        · exact hv
        · intro e he hek
          exact hk (List.mem_map.mpr ⟨e, he, hek⟩)
    | file res =>
      cases res with
      | error msg =>
        dsimp only at hok
        exact absurd hok (by simp)
      | ok f =>
        dsimp only at hok hk
        simp only [Except.ok.injEq] at hok
        rw [← hok]
        show lookupStr (upsert p.files path f) k = some v
        rw [lookupStr_upsert_other]
        · exact hv
        · intro hkp
          exact hk (by rw [hkp]; exact List.mem_singleton.mpr rfl)

theorem C9_witness :
    lookupStr (⟨upsert pOld.files "new.go" fileAB⟩ : ParserSt).files "old.go" =
      some goodFile := by
  refine C9_parsePath_merges fsNew pOld "new.go"
    ⟨upsert pOld.files "new.go" fileAB⟩ "old.go" goodFile rfl rfl ?_
  simp [parsedKeys, fsNew, lookupStr, List.find?]

/-- C10: for every import processed by `Module.ParseFile`, the stored import
node's content and its `path` metadata are the raw literal including the
surrounding quotes, while the extractor's `GetImports` returns the same
paths with the quotes stripped — for a quoted literal `"x"` the two public
surfaces return different strings. -/
theorem C10_import_representations (fs : FileSys) (s : Store)
    (filename pkg : String) (imports : List (Option String × String))
    (decls : List GoNode) (al : Option String) (lit : String)
    (hfs : lookupStr fs filename =
      some (.file (.ok (.file (some pkg) imports decls))))
    (himp : (al, lit) ∈ imports) (s2 : Store)
    (hok : ModuleParseFile fs s filename = .ok s2) :
    (∃ node ∈ s2.nodes, node.nodeType = NodeTypeImport ∧
      node.content = lit ∧ node.meta.path = some lit) ∧
    (ParserSt.mk [(filename, .file (some pkg) imports decls)]).GetImports =
      [(pkg, imports.map (fun i => stripQuotes i.2))] ∧
    (∀ x, lit = "\"" ++ x ++ "\"" → stripQuotes lit = x ∧ lit ≠ x) := by
  refine ⟨ModuleParseFile_import_node fs s filename pkg imports decls al lit
    hfs himp s2 hok, ?_, ?_⟩
  · rw [GetImports_single]
    have hne : imports.isEmpty = false := by
      cases imports with
      | nil => simp at himp
      | cons i is => rfl
    rw [hne]
    simp
  · intro x hx
    subst hx
    exact ⟨stripQuotes_quoted x, quoted_ne_self x⟩

/-- The import list of the example file: one unaliased import of `fmt`. -/
def importsFmt : List (Option String × String) := [(none, "\"fmt\"")]

/-- A file importing `fmt` (raw literal with quotes). -/
def fileImports : GoNode := .file (some "main") importsFmt []

/-- A file system holding that file. -/
def fsImports : FileSys := [("a.go", .file (.ok fileImports))]

/-- The store `Module.ParseFile` produces for that file. -/
def ModuleParseFileStore : Store :=
  match ModuleParseFile fsImports Store.empty "a.go" with
  | .ok s => s
  | .error _ => Store.empty

theorem C10_witness :
    (∃ node ∈ (ModuleParseFileStore).nodes, node.nodeType = NodeTypeImport ∧
      node.content = "\"fmt\"" ∧ node.meta.path = some "\"fmt\"") ∧
    (ParserSt.mk [("a.go", .file (some "main") importsFmt [])]).GetImports =
      [("main", importsFmt.map (fun i => stripQuotes i.2))] ∧
    (∀ x, "\"fmt\"" = "\"" ++ x ++ "\"" →
      stripQuotes "\"fmt\"" = x ∧ "\"fmt\"" ≠ x) := by
  exact C10_import_representations fsImports Store.empty "a.go" "main"
    importsFmt [] none "\"fmt\"" rfl (by simp [importsFmt])
    ModuleParseFileStore rfl

end MemexAst
